import Mathlib

/-!
Shallow embedding of `src/generate_secret.py` (an admin-token generator):
the script builds the plaintext `"{YYYY-MM-DD}_{secret}_xy521"`, derives an
AES-256 key as SHA-256 of the UTF-8 secret, draws a random 16-byte IV,
applies PKCS#7 padding, encrypts with AES-256-CBC and returns the lowercase
hex encoding of `IV || ciphertext`.

Bytes are modelled as natural numbers below 256 (`List Nat` with the
`AllBytes` predicate).  The ambient effects of the script (the system clock
and `os.urandom`) are modelled as explicit parameters, and the cryptographic
primitives of the external `cryptography` package (SHA-256, AES-256-CBC,
PKCS#7) are modelled from their public standards (FIPS 180-4, FIPS 197,
NIST SP 800-38A, RFC 5652 §6.3), with the concrete test vectors of those
standards re-checked inside this file.
-/

/-- Every entry of the list is a byte value (`< 256`). -/
def AllBytes (l : List Nat) : Prop := ∀ b ∈ l, b < 256

instance : DecidablePred AllBytes := fun l => List.decidableBAll _ l

/-! ### Lowercase hex encoding (Python `bytes.hex()`) -/

/-- The lowercase hex digit for a value below 16 (`0`-`9` then `a`-`f`). -/
def hexDigit (n : Nat) : Char :=
  if n < 10 then Char.ofNat (48 + n) else Char.ofNat (87 + n)

/-- The two lowercase hex digits of one byte, high nibble first. -/
def byteToHex (b : Nat) : List Char := [hexDigit (b / 16), hexDigit (b % 16)]

/-- `bytes.hex()`: lowercase hex encoding of a byte list, no separators. -/
def bytesToHex (l : List Nat) : String := String.mk (l.flatMap byteToHex)

/-- Value of a lowercase hex digit character. -/
def hexDigitVal (c : Char) : Nat :=
  if 48 ≤ c.toNat ∧ c.toNat ≤ 57 then c.toNat - 48
  else if 97 ≤ c.toNat ∧ c.toNat ≤ 102 then c.toNat - 87
  else 0

/-- Decode a hex character string (as a char list) back to bytes. -/
def hexToBytes : List Char → List Nat
  | c1 :: c2 :: rest => (16 * hexDigitVal c1 + hexDigitVal c2) :: hexToBytes rest
  | _ => []

/-! ### PKCS#7 padding (RFC 5652 §6.3, block size 16) -/

/-- Number of PKCS#7 padding bytes for a message of length `n` (1 to 16). -/
def pkcs7PadLen (n : Nat) : Nat := 16 - n % 16

/-- PKCS#7 padding with block size 16: append `p` bytes of value `p`. -/
def pkcs7Pad (data : List Nat) : List Nat :=
  data ++ List.replicate (pkcs7PadLen data.length) (pkcs7PadLen data.length)

/-- PKCS#7 unpadding with block size 16: validate and strip the padding
(an empty input yields `n = 0` and is rejected). -/
def pkcs7Unpad (data : List Nat) : Option (List Nat) :=
  let n := data.getLast?.getD 0
  if 1 ≤ n ∧ n ≤ 16 ∧ n ≤ data.length ∧
      (data.drop (data.length - n)).all (· == n)
  then some (data.take (data.length - n)) else none

/-! ### UTF-8 encoding -/

/-- Standard UTF-8 encoding of one Unicode scalar value. -/
def utf8EncodeChar (c : Char) : List Nat :=
  if c.toNat < 128 then [c.toNat]
  else if c.toNat < 2048 then [192 + c.toNat / 64, 128 + c.toNat % 64]
  else if c.toNat < 65536 then
    [224 + c.toNat / 4096, 128 + (c.toNat / 64) % 64, 128 + c.toNat % 64]
  else
    [240 + c.toNat / 262144, 128 + (c.toNat / 4096) % 64,
     128 + (c.toNat / 64) % 64, 128 + c.toNat % 64]

/-- UTF-8 encoding of a string (`str.encode('utf-8')` in the source). -/
def utf8Encode (s : String) : List Nat := s.data.flatMap utf8EncodeChar

/-! ### SHA-256 (FIPS 180-4), the `hashlib.sha256(...).digest()` call -/

/-- Truncate to a 32-bit word. -/
def w32 (n : Nat) : Nat := n % 4294967296

/-- Right rotation of a 32-bit word by `k` (for `k ≤ 32`). -/
def rotr32 (k x : Nat) : Nat := x / 2 ^ k + x % 2 ^ k * 2 ^ (32 - k)

/-- The 64 SHA-256 round constants (fractional parts of cube roots of the
first 64 primes). -/
def sha256K : List Nat :=
  [1116352408, 1899447441, 3049323471, 3921009573, 961987163, 1508970993, 2453635748, 2870763221,
   3624381080, 310598401, 607225278, 1426881987, 1925078388, 2162078206, 2614888103, 3248222580,
   3835390401, 4022224774, 264347078, 604807628, 770255983, 1249150122, 1555081692, 1996064986,
   2554220882, 2821834349, 2952996808, 3210313671, 3336571891, 3584528711, 113926993, 338241895,
   666307205, 773529912, 1294757372, 1396182291, 1695183700, 1986661051, 2177026350, 2456956037,
   2730485921, 2820302411, 3259730800, 3345764771, 3516065817, 3600352804, 4094571909, 275423344,
   430227734, 506948616, 659060556, 883997877, 958139571, 1322822218, 1537002063, 1747873779,
   1955562222, 2024104815, 2227730452, 2361852424, 2428436474, 2756734187, 3204031479, 3329325298]

/-- The SHA-256 initial hash value (fractional parts of square roots of the
first 8 primes). -/
def sha256H0 : List Nat :=
  [1779033703, 3144134277, 1013904242, 2773480762, 1359893119, 2600822924, 528734635, 1541459225]

def sha256Ch (e f g : Nat) : Nat := (e &&& f) ^^^ ((e ^^^ 4294967295) &&& g)

def sha256Maj (a b c : Nat) : Nat := (a &&& b) ^^^ (a &&& c) ^^^ (b &&& c)

def sha256S0 (a : Nat) : Nat := rotr32 2 a ^^^ rotr32 13 a ^^^ rotr32 22 a

def sha256S1 (e : Nat) : Nat := rotr32 6 e ^^^ rotr32 11 e ^^^ rotr32 25 e

def sha256LS0 (x : Nat) : Nat := rotr32 7 x ^^^ rotr32 18 x ^^^ x / 8

def sha256LS1 (x : Nat) : Nat := rotr32 17 x ^^^ rotr32 19 x ^^^ x / 1024

/-- Big-endian bytes of the 64-bit message length in bits. -/
def sha256LenBytes (ml : Nat) : List Nat :=
  [8 * ml / 72057594037927936 % 256, 8 * ml / 281474976710656 % 256,
   8 * ml / 1099511627776 % 256, 8 * ml / 4294967296 % 256,
   8 * ml / 16777216 % 256, 8 * ml / 65536 % 256, 8 * ml / 256 % 256, 8 * ml % 256]

/-- FIPS 180-4 §5.1.1 message padding: a `0x80` byte, zero bytes up to 56 mod
64, then the 8-byte big-endian bit length. -/
def sha256PadMsg (msg : List Nat) : List Nat :=
  msg ++ [128] ++ List.replicate ((119 - msg.length % 64) % 64) 0
      ++ sha256LenBytes msg.length

/-- Big-endian 32-bit words of a byte list. -/
def bytesToWords : List Nat → List Nat
  | b0 :: b1 :: b2 :: b3 :: rest =>
      (((b0 * 256 + b1) * 256 + b2) * 256 + b3) :: bytesToWords rest
  | _ => []

/-- One step of the message-schedule extension: append word
`w[i] = σ1 w[i-2] + w[i-7] + σ0 w[i-15] + w[i-16]`. -/
def sha256ExtendStep (w : List Nat) : List Nat :=
  w ++ [w32 (w.getD (w.length - 16) 0 + sha256LS0 (w.getD (w.length - 15) 0)
      + w.getD (w.length - 7) 0 + sha256LS1 (w.getD (w.length - 2) 0))]

def sha256ExtendAux : Nat → List Nat → List Nat
  | 0, w => w
  | n + 1, w => sha256ExtendAux n (sha256ExtendStep w)

/-- The 64-entry message schedule of one 64-byte block. -/
def sha256Schedule (block : List Nat) : List Nat :=
  sha256ExtendAux 48 (bytesToWords block)

/-- One SHA-256 compression round on the 8-word working state. -/
def sha256Round (wk : Nat × Nat) (st : List Nat) : List Nat :=
  match st with
  | [a, b, c, d, e, f, g, h] =>
      let t1 := w32 (h + sha256S1 e + sha256Ch e f g + wk.2 + wk.1)
      let t2 := w32 (sha256S0 a + sha256Maj a b c)
      [w32 (t1 + t2), a, b, c, w32 (d + t1), e, f, g]
  | l => l

/-- Compress one 64-byte block into the 8-word hash state. -/
def sha256Compress (st : List Nat) (block : List Nat) : List Nat :=
  let final := ((sha256Schedule block).zip sha256K).foldl
    (fun s wk => sha256Round wk s) st
  st.zipWith (fun x y => w32 (x + y)) final

/-- Take `n` chunks of 64 bytes from a byte list. -/
def toBlocks64Go : Nat → List Nat → List (List Nat)
  | 0, _ => []
  | n + 1, l => l.take 64 :: toBlocks64Go n (l.drop 64)

/-- Split a byte list into 64-byte chunks. -/
def toBlocks64 (l : List Nat) : List (List Nat) :=
  toBlocks64Go ((l.length + 63) / 64) l

/-- Big-endian bytes of one 32-bit word. -/
def wordToBytes (w : Nat) : List Nat :=
  [w / 16777216 % 256, w / 65536 % 256, w / 256 % 256, w % 256]

/-- SHA-256 digest (32 bytes) of a byte list. -/
def sha256 (msg : List Nat) : List Nat :=
  ((toBlocks64 (sha256PadMsg msg)).foldl sha256Compress sha256H0).flatMap wordToBytes

/-! ### AES-256 (FIPS 197): the `algorithms.AES` / `modes.CBC` calls -/

/-- The AES S-box (FIPS 197 figure 7). -/
def sboxTable : List Nat :=
  [99, 124, 119, 123, 242, 107, 111, 197, 48, 1, 103, 43, 254, 215, 171, 118,
   202, 130, 201, 125, 250, 89, 71, 240, 173, 212, 162, 175, 156, 164, 114, 192,
   183, 253, 147, 38, 54, 63, 247, 204, 52, 165, 229, 241, 113, 216, 49, 21,
   4, 199, 35, 195, 24, 150, 5, 154, 7, 18, 128, 226, 235, 39, 178, 117,
   9, 131, 44, 26, 27, 110, 90, 160, 82, 59, 214, 179, 41, 227, 47, 132,
   83, 209, 0, 237, 32, 252, 177, 91, 106, 203, 190, 57, 74, 76, 88, 207,
   208, 239, 170, 251, 67, 77, 51, 133, 69, 249, 2, 127, 80, 60, 159, 168,
   81, 163, 64, 143, 146, 157, 56, 245, 188, 182, 218, 33, 16, 255, 243, 210,
   205, 12, 19, 236, 95, 151, 68, 23, 196, 167, 126, 61, 100, 93, 25, 115,
   96, 129, 79, 220, 34, 42, 144, 136, 70, 238, 184, 20, 222, 94, 11, 219,
   224, 50, 58, 10, 73, 6, 36, 92, 194, 211, 172, 98, 145, 149, 228, 121,
   231, 200, 55, 109, 141, 213, 78, 169, 108, 86, 244, 234, 101, 122, 174, 8,
   186, 120, 37, 46, 28, 166, 180, 198, 232, 221, 116, 31, 75, 189, 139, 138,
   112, 62, 181, 102, 72, 3, 246, 14, 97, 53, 87, 185, 134, 193, 29, 158,
   225, 248, 152, 17, 105, 217, 142, 148, 155, 30, 135, 233, 206, 85, 40, 223,
   140, 161, 137, 13, 191, 230, 66, 104, 65, 153, 45, 15, 176, 84, 187, 22]

/-- The inverse AES S-box (FIPS 197 figure 14). -/
def invSboxTable : List Nat :=
  [82, 9, 106, 213, 48, 54, 165, 56, 191, 64, 163, 158, 129, 243, 215, 251,
   124, 227, 57, 130, 155, 47, 255, 135, 52, 142, 67, 68, 196, 222, 233, 203,
   84, 123, 148, 50, 166, 194, 35, 61, 238, 76, 149, 11, 66, 250, 195, 78,
   8, 46, 161, 102, 40, 217, 36, 178, 118, 91, 162, 73, 109, 139, 209, 37,
   114, 248, 246, 100, 134, 104, 152, 22, 212, 164, 92, 204, 93, 101, 182, 146,
   108, 112, 72, 80, 253, 237, 185, 218, 94, 21, 70, 87, 167, 141, 157, 132,
   144, 216, 171, 0, 140, 188, 211, 10, 247, 228, 88, 5, 184, 179, 69, 6,
   208, 44, 30, 143, 202, 63, 15, 2, 193, 175, 189, 3, 1, 19, 138, 107,
   58, 145, 17, 65, 79, 103, 220, 234, 151, 242, 207, 206, 240, 180, 230, 115,
   150, 172, 116, 34, 231, 173, 53, 133, 226, 249, 55, 232, 28, 117, 223, 110,
   71, 241, 26, 113, 29, 41, 197, 137, 111, 183, 98, 14, 170, 24, 190, 27,
   252, 86, 62, 75, 198, 210, 121, 32, 154, 219, 192, 254, 120, 205, 90, 244,
   31, 221, 168, 51, 136, 7, 199, 49, 177, 18, 16, 89, 39, 128, 236, 95,
   96, 81, 127, 169, 25, 181, 74, 13, 45, 229, 122, 159, 147, 201, 156, 239,
   160, 224, 59, 77, 174, 42, 245, 176, 200, 235, 187, 60, 131, 83, 153, 97,
   23, 43, 4, 126, 186, 119, 214, 38, 225, 105, 20, 99, 85, 33, 12, 125]

def sbox (b : Nat) : Nat := sboxTable.getD b 0

def invSbox (b : Nat) : Nat := invSboxTable.getD b 0

/-- Multiplication by `x` in GF(2^8) modulo `x^8 + x^4 + x^3 + x + 1`. -/
def xtime (b : Nat) : Nat := 2 * b % 256 ^^^ (if 128 ≤ b then 27 else 0)

/-- GF(2^8) multiplication by 2. -/
def gmul2 (b : Nat) : Nat := xtime b

/-- GF(2^8) multiplication by 3. -/
def gmul3 (b : Nat) : Nat := xtime b ^^^ b

/-- GF(2^8) multiplication by 9. -/
def gmul9 (b : Nat) : Nat := xtime (xtime (xtime b)) ^^^ b

/-- GF(2^8) multiplication by 11. -/
def gmul11 (b : Nat) : Nat := xtime (xtime (xtime b)) ^^^ (xtime b ^^^ b)

/-- GF(2^8) multiplication by 13. -/
def gmul13 (b : Nat) : Nat := xtime (xtime (xtime b)) ^^^ (xtime (xtime b) ^^^ b)

/-- GF(2^8) multiplication by 14. -/
def gmul14 (b : Nat) : Nat := xtime (xtime (xtime b)) ^^^ (xtime (xtime b) ^^^ xtime b)

def subBytes (st : List Nat) : List Nat := st.map sbox

def invSubBytes (st : List Nat) : List Nat := st.map invSbox

/-- ShiftRows on the flat 16-byte state (byte `r + 4c` sits in row `r`,
column `c`; row `r` rotates left by `r`). -/
def shiftRows : List Nat → List Nat
  | [s0, s1, s2, s3, s4, s5, s6, s7, s8, s9, s10, s11, s12, s13, s14, s15] =>
      [s0, s5, s10, s15, s4, s9, s14, s3, s8, s13, s2, s7, s12, s1, s6, s11]
  | l => l

/-- Inverse ShiftRows (row `r` rotates right by `r`). -/
def invShiftRows : List Nat → List Nat
  | [s0, s1, s2, s3, s4, s5, s6, s7, s8, s9, s10, s11, s12, s13, s14, s15] =>
      [s0, s13, s10, s7, s4, s1, s14, s11, s8, s5, s2, s15, s12, s9, s6, s3]
  | l => l

/-- MixColumns on one column. -/
def mixColumn (a b c d : Nat) : List Nat :=
  [gmul2 a ^^^ gmul3 b ^^^ c ^^^ d,
   a ^^^ gmul2 b ^^^ gmul3 c ^^^ d,
   a ^^^ b ^^^ gmul2 c ^^^ gmul3 d,
   gmul3 a ^^^ b ^^^ c ^^^ gmul2 d]

/-- Inverse MixColumns on one column. -/
def invMixColumn (a b c d : Nat) : List Nat :=
  [gmul14 a ^^^ gmul11 b ^^^ gmul13 c ^^^ gmul9 d,
   gmul9 a ^^^ gmul14 b ^^^ gmul11 c ^^^ gmul13 d,
   gmul13 a ^^^ gmul9 b ^^^ gmul14 c ^^^ gmul11 d,
   gmul11 a ^^^ gmul13 b ^^^ gmul9 c ^^^ gmul14 d]

def mixColumns : List Nat → List Nat
  | [s0, s1, s2, s3, s4, s5, s6, s7, s8, s9, s10, s11, s12, s13, s14, s15] =>
      mixColumn s0 s1 s2 s3 ++ mixColumn s4 s5 s6 s7
        ++ mixColumn s8 s9 s10 s11 ++ mixColumn s12 s13 s14 s15
  | l => l

def invMixColumns : List Nat → List Nat
  | [s0, s1, s2, s3, s4, s5, s6, s7, s8, s9, s10, s11, s12, s13, s14, s15] =>
      invMixColumn s0 s1 s2 s3 ++ invMixColumn s4 s5 s6 s7
        ++ invMixColumn s8 s9 s10 s11 ++ invMixColumn s12 s13 s14 s15
  | l => l

/-- Pointwise XOR of two byte lists. -/
def xorBytes (a b : List Nat) : List Nat := a.zipWith (· ^^^ ·) b

/-- AddRoundKey. -/
def addRoundKey (rk st : List Nat) : List Nat := xorBytes st rk

/-- AES round-constant words `Rcon[i]`. -/
def rconVal (i : Nat) : Nat := [0, 1, 2, 4, 8, 16, 32, 64, 128, 27, 54].getD i 0

def rotWord : List Nat → List Nat
  | [a, b, c, d] => [b, c, d, a]
  | l => l

def subWord (w : List Nat) : List Nat := w.map sbox

/-- The next four-byte word `w[n]` of the FIPS 197 §5.2 key expansion for a
256-bit key (`Nk = 8`), given the words built so far. -/
def nextWord (key : List Nat) (ws : List (List Nat)) (n : Nat) : List Nat :=
  if n < 8 then (key.drop (4 * n)).take 4
  else
    xorBytes (ws.getD (n - 8) [])
      (if n % 8 = 0 then
        xorBytes (subWord (rotWord (ws.getD (n - 1) []))) [rconVal (n / 8), 0, 0, 0]
      else if n % 8 = 4 then subWord (ws.getD (n - 1) [])
      else ws.getD (n - 1) [])

/-- FIPS 197 §5.2 key expansion: the first `n` four-byte words of the
schedule for a 256-bit key (`Nk = 8`). -/
def keyScheduleWords (key : List Nat) : Nat → List (List Nat)
  | 0 => []
  | n + 1 => keyScheduleWords key n ++ [nextWord key (keyScheduleWords key n) n]

/-- The 15 sixteen-byte round keys of AES-256. -/
def roundKeys (key : List Nat) : List (List Nat) :=
  (List.range 15).map fun r =>
    (keyScheduleWords key 60).getD (4 * r) [] ++ (keyScheduleWords key 60).getD (4 * r + 1) []
      ++ (keyScheduleWords key 60).getD (4 * r + 2) [] ++ (keyScheduleWords key 60).getD (4 * r + 3) []

/-- One middle AES round. -/
def aesRound (rk st : List Nat) : List Nat :=
  addRoundKey rk (mixColumns (shiftRows (subBytes st)))

/-- The final AES round (no MixColumns). -/
def aesFinalRound (rk st : List Nat) : List Nat :=
  addRoundKey rk (shiftRows (subBytes st))

/-- One inverse AES round, in the straightforward InvCipher order. -/
def invAesRound (rk st : List Nat) : List Nat :=
  invMixColumns (addRoundKey rk (invSubBytes (invShiftRows st)))

/-- AES-256 block encryption (FIPS 197 §5.1). -/
def encryptBlock (key block : List Nat) : List Nat :=
  let ks := roundKeys key
  aesFinalRound (ks.getD 14 [])
    (((ks.drop 1).take 13).foldl (fun st k => aesRound k st)
      (addRoundKey (ks.getD 0 []) block))

/-- AES-256 block decryption (FIPS 197 §5.3, InvCipher). -/
def decryptBlock (key block : List Nat) : List Nat :=
  let ks := roundKeys key
  addRoundKey (ks.getD 0 [])
    (invSubBytes (invShiftRows
      ((((ks.drop 1).take 13).reverse).foldl (fun st k => invAesRound k st)
        (addRoundKey (ks.getD 14 []) block))))

/-! #### Byte-level facts about the AES primitives -/

instance : Std.Associative (α := Nat) (· ^^^ ·) := ⟨Nat.xor_assoc⟩

instance : Std.Commutative (α := Nat) (· ^^^ ·) := ⟨Nat.xor_comm⟩

/-! #### State-level AES lemmas -/

/-! #### Key schedule validity -/

/-! #### Block-level inversion -/

/-! ### CBC mode (NIST SP 800-38A §6.2) -/

/-- Take `n` chunks of 16 bytes from a byte list. -/
def toBlocks16Go : Nat → List Nat → List (List Nat)
  | 0, _ => []
  | n + 1, l => l.take 16 :: toBlocks16Go n (l.drop 16)

/-- Split a byte list into 16-byte blocks. -/
def toBlocks16 (l : List Nat) : List (List Nat) :=
  toBlocks16Go ((l.length + 15) / 16) l

/-- CBC encryption block by block: `C_i = E(P_i ⊕ C_{i-1})`, seeded with the IV. -/
def cbcEncryptGo (key : List Nat) : List Nat → List (List Nat) → List (List Nat)
  | _, [] => []
  | prev, p :: rest =>
      encryptBlock key (xorBytes p prev)
        :: cbcEncryptGo key (encryptBlock key (xorBytes p prev)) rest

/-- AES-256-CBC encryption of a byte string under `key` and `iv`. -/
def cbcEncrypt (key iv data : List Nat) : List Nat :=
  (cbcEncryptGo key iv (toBlocks16 data)).flatten

/-- CBC decryption block by block: `P_i = D(C_i) ⊕ C_{i-1}`, seeded with the IV. -/
def cbcDecryptGo (key : List Nat) : List Nat → List (List Nat) → List (List Nat)
  | _, [] => []
  | prev, c :: rest => xorBytes (decryptBlock key c) prev :: cbcDecryptGo key c rest

/-- AES-256-CBC decryption of a byte string under `key` and `iv`. -/
def cbcDecrypt (key iv data : List Nat) : List Nat :=
  (cbcDecryptGo key iv (toBlocks16 data)).flatten

/-! ### The program: `generate_admin_secret` and the `__main__` block -/

/-- A calendar date, the result of the `datetime.now()` call (the system
clock is outside the program, so the date is an explicit parameter). -/
structure Date where
  year : Nat
  month : Nat
  day : Nat

/-- Zero-pad the decimal representation of `n` to width `w`. -/
def padNum (w n : Nat) : String :=
  String.mk (List.replicate (w - (Nat.repr n).length) (Char.ofNat 48)) ++ Nat.repr n

/-- Modelled from the spec: `datetime.now().strftime("%Y-%m-%d")` (line 15)
formats the current local date as `YYYY-MM-DD`, zero-padding the year to 4
digits and month and day to 2; `strftime` itself lives outside the
repository. -/
def formatDate (now : Date) : String :=
  padNum 4 now.year ++ "-" ++ padNum 2 now.month ++ "-" ++ padNum 2 now.day

/-- Line 16: `plain_text = f"{date_str}_{admin_secret_env}_xy521"`. -/
def plainTextOf (date_str admin_secret_env : String) : String :=
  date_str ++ "_" ++ admin_secret_env ++ "_xy521"

/-- `generate_admin_secret` (lines 13-41), with the ambient clock and the
`os.urandom(16)` draw passed as explicit parameters: derives the key as
SHA-256 of the UTF-8 secret, pads the composed plaintext with PKCS#7,
encrypts with AES-256-CBC and returns the hex encoding of
`IV || ciphertext`. -/
def generate_admin_secret (now : Date) (urandom16 : List Nat)
    (admin_secret_env : String) : String :=
  let date_str := formatDate now
  let plain_text := plainTextOf date_str admin_secret_env
  let key := sha256 (utf8Encode admin_secret_env)
  let iv := urandom16
  let padded_data := pkcs7Pad (utf8Encode plain_text)
  let ciphertext := cbcEncrypt key iv padded_data
  bytesToHex (iv ++ ciphertext)

/-- The five lines printed by `generate_admin_secret` (lines 36-40). -/
def generate_admin_secret_stdout (now : Date) (urandom16 : List Nat)
    (admin_secret_env : String) : List String :=
  ["--- 管理员加密工具 ---",
   "当前日期: " ++ formatDate now,
   "原始明文: " ++ plainTextOf (formatDate now) admin_secret_env,
   "生成的加密串 (admin_secret): " ++ generate_admin_secret now urandom16 admin_secret_env,
   "----------------------"]

/-- The code points of the characters Python 3 `str.strip()` removes by
default (exactly those `c` with `c.strip() == ''`): U+0009-U+000D,
U+001C-U+001F, space, U+0085 (next line), U+00A0 (no-break space),
U+1680 (Ogham space mark), U+2000-U+200A (en quad .. hair space),
U+2028 (line separator), U+2029 (paragraph separator), U+202F (narrow
no-break space), U+205F (medium mathematical space) and U+3000
(ideographic space). -/
def pyWhitespaceCodes : List Nat :=
  [9, 10, 11, 12, 13, 28, 29, 30, 31, 32, 133, 160, 5760, 8192, 8193, 8194,
   8195, 8196, 8197, 8198, 8199, 8200, 8201, 8202, 8232, 8233, 8239, 8287, 12288]

/-- Python `str.strip()` whitespace (the characters stripped by default). -/
def isPyWhitespace (c : Char) : Bool := pyWhitespaceCodes.contains c.toNat

/-- Python `str.strip()` with no argument: remove leading and trailing
whitespace. -/
def pyStrip (s : String) : String :=
  String.mk (((s.data.dropWhile isPyWhitespace).reverse.dropWhile
    isPyWhitespace).reverse)

/-- The observable outcome of one run of the script. -/
structure ProgramResult where
  stdout : List String
  exitCode : Nat
  token : Option String
deriving DecidableEq

/-- The `__main__` block (lines 43-56): `argv` models `sys.argv[1:]` and
`stdinLine` the reply to `input()` (consulted only when no argument is
given; the interactive value is stripped of surrounding whitespace, a
command-line value is used verbatim).  Both branches fall off the end of
the script, so the process exit status is 0 on each. -/
def mainProgram (argv : List String) (stdinLine : String) (now : Date)
    (urandom16 : List Nat) : ProgramResult :=
  let my_secret :=
    match argv with
    | a :: _ => a
    | [] => pyStrip stdinLine
  if my_secret = "" then
    { stdout := ["错误: 未提供 ADMIN_SECRET"], exitCode := 0, token := none }
  else
    { stdout := generate_admin_secret_stdout now urandom16 my_secret,
      exitCode := 0,
      token := some (generate_admin_secret now urandom16 my_secret) }

/-! ### Helper lemmas about the generated token -/

/-! ### The claims -/

/-! ### Theorems -/

theorem hexDigitVal_hexDigit {n : Nat} (h : n < 16) :
    hexDigitVal (hexDigit n) = n := by
  interval_cases n <;> decide

theorem hexToBytes_byteToHex (b : Nat) (hb : b < 256) (cs : List Char) :
    hexToBytes (byteToHex b ++ cs) = b :: hexToBytes cs := by
  have h1 : b / 16 < 16 := Nat.div_lt_of_lt_mul (by omega)
  have h2 : b % 16 < 16 := Nat.mod_lt _ (by omega)
  simp only [byteToHex, List.cons_append, List.nil_append, hexToBytes,
    hexDigitVal_hexDigit h1, hexDigitVal_hexDigit h2]
  congr 1
  omega

/-- Decoding inverts encoding on byte lists. -/
theorem hexToBytes_bytesToHex (l : List Nat) (hl : AllBytes l) :
    hexToBytes (bytesToHex l).data = l := by
  induction l with
  | nil => rfl
  | cons b rest ih =>
    have hb : b < 256 := hl b (List.mem_cons_self b rest)
    have hrest : AllBytes rest := fun x hx => hl x (List.mem_cons_of_mem b hx)
    simp only [bytesToHex, List.flatMap_cons] at *
    rw [hexToBytes_byteToHex b hb]
    exact congrArg (b :: ·) (ih hrest)

theorem flatMap_byteToHex_length (l : List Nat) :
    (l.flatMap byteToHex).length = 2 * l.length := by
  induction l with
  | nil => rfl
  | cons b rest ih =>
    rw [List.flatMap_cons, List.length_append, ih]
    simp only [byteToHex, List.length_cons, List.length_nil]
    omega

theorem bytesToHex_length (l : List Nat) :
    (bytesToHex l).length = 2 * l.length := by
  show (l.flatMap byteToHex).length = 2 * l.length
  exact flatMap_byteToHex_length l

theorem bytesToHex_append (l1 l2 : List Nat) :
    bytesToHex (l1 ++ l2) = bytesToHex l1 ++ bytesToHex l2 := by
  simp only [bytesToHex, List.flatMap_append]
  rfl

theorem pkcs7PadLen_pos (n : Nat) : 1 ≤ pkcs7PadLen n := by
  have := Nat.mod_lt n (y := 16) (by omega)
  unfold pkcs7PadLen
  omega

theorem pkcs7PadLen_le (n : Nat) : pkcs7PadLen n ≤ 16 := by
  unfold pkcs7PadLen
  omega

theorem pkcs7Pad_length (data : List Nat) :
    (pkcs7Pad data).length = data.length + pkcs7PadLen data.length := by
  simp [pkcs7Pad]

theorem pkcs7Pad_length_mod (data : List Nat) :
    (pkcs7Pad data).length % 16 = 0 := by
  rw [pkcs7Pad_length]
  unfold pkcs7PadLen
  omega

theorem pkcs7Pad_allBytes (data : List Nat) (h : AllBytes data) :
    AllBytes (pkcs7Pad data) := by
  intro b hb
  rcases List.mem_append.mp hb with h1 | h2
  · exact h b h1
  · have := List.eq_of_mem_replicate h2
    have := pkcs7PadLen_le data.length
    omega

theorem getLast?_replicate_succ (m v : Nat) :
    (List.replicate (m + 1) v).getLast? = some v := by
  rw [List.replicate_succ', List.getLast?_concat]

theorem getLast?_append_replicate (l : List Nat) (p v : Nat) (hp : 1 ≤ p) :
    (l ++ List.replicate p v).getLast? = some v := by
  cases p with
  | zero => omega
  | succ m => rw [List.getLast?_append, getLast?_replicate_succ]; rfl

/-- Unpadding inverts padding, for every message. -/
theorem pkcs7Unpad_pkcs7Pad (data : List Nat) :
    pkcs7Unpad (pkcs7Pad data) = some data := by
  set p := pkcs7PadLen data.length with hp
  have hp1 : 1 ≤ p := pkcs7PadLen_pos data.length
  have hp16 : p ≤ 16 := pkcs7PadLen_le data.length
  have hlen : (pkcs7Pad data).length = data.length + p := pkcs7Pad_length data
  have hlast : (pkcs7Pad data).getLast? = some p :=
    getLast?_append_replicate data p p hp1
  have hdrop : (pkcs7Pad data).drop ((pkcs7Pad data).length - p)
      = List.replicate p p := by
    rw [hlen]
    have h2 : data.length + p - p = data.length := by omega
    rw [h2]
    unfold pkcs7Pad
    rw [List.drop_left]
  have htake : (pkcs7Pad data).take ((pkcs7Pad data).length - p) = data := by
    rw [hlen]
    have h2 : data.length + p - p = data.length := by omega
    rw [h2]
    unfold pkcs7Pad
    rw [List.take_left]
  unfold pkcs7Unpad
  simp only [hlast, Option.getD_some]
  rw [if_pos]
  · rw [htake]
  · refine ⟨hp1, hp16, by omega, ?_⟩
    rw [hdrop]
    simp [List.all_eq_true]

theorem char_toNat_lt (c : Char) : c.toNat < 1114112 := by
  rcases c.valid with h | ⟨_, h⟩
  · exact Nat.lt_trans h (by omega)
  · exact h

theorem utf8EncodeChar_allBytes (c : Char) : AllBytes (utf8EncodeChar c) := by
  intro b hb
  have hc := char_toNat_lt c
  unfold utf8EncodeChar at hb
  split at hb
  · simp at hb
    omega
  · split at hb
    · have h2 : c.toNat % 64 < 64 := Nat.mod_lt _ (by omega)
      simp at hb
      rcases hb with h | h <;> omega
    · split at hb
      · have h2 : (c.toNat / 64) % 64 < 64 := Nat.mod_lt _ (by omega)
        have h3 : c.toNat % 64 < 64 := Nat.mod_lt _ (by omega)
        simp at hb
        rcases hb with h | h | h <;> omega
      · have h2 : (c.toNat / 4096) % 64 < 64 := Nat.mod_lt _ (by omega)
        have h3 : (c.toNat / 64) % 64 < 64 := Nat.mod_lt _ (by omega)
        have h4 : c.toNat % 64 < 64 := Nat.mod_lt _ (by omega)
        simp at hb
        rcases hb with h | h | h | h <;> omega

theorem utf8Encode_allBytes (s : String) : AllBytes (utf8Encode s) := by
  intro b hb
  unfold utf8Encode at hb
  rw [List.mem_flatMap] at hb
  rcases hb with ⟨c, _, hc⟩
  exact utf8EncodeChar_allBytes c b hc

theorem utf8Encode_append (s t : String) :
    utf8Encode (s ++ t) = utf8Encode s ++ utf8Encode t := by
  simp [utf8Encode, String.data_append]

/-- NIST-style known-answer check: the SHA-256 digest of the ASCII bytes
`test` (cross-checked against `hashlib`). -/
theorem sha256_test_vector : sha256 (utf8Encode "test") =
    [159, 134, 208, 129, 136, 76, 125, 101, 154, 47, 234, 160, 197, 90, 208, 21,
     163, 191, 79, 27, 43, 11, 130, 44, 209, 93, 108, 21, 176, 240, 10, 8] := by
  decide

theorem sha256Round_length (wk : Nat × Nat) (st : List Nat) :
    (sha256Round wk st).length = st.length := by
  rcases st with _ | ⟨a, _ | ⟨b, _ | ⟨c, _ | ⟨d, _ | ⟨e, _ | ⟨f, _ | ⟨g, _ | ⟨h, _ | ⟨i, t⟩⟩⟩⟩⟩⟩⟩⟩⟩ <;> rfl

theorem foldl_sha256Round_length (ps : List (Nat × Nat)) (st : List Nat) :
    (ps.foldl (fun s wk => sha256Round wk s) st).length = st.length := by
  induction ps generalizing st with
  | nil => rfl
  | cons p rest ih => rw [List.foldl_cons, ih, sha256Round_length]

theorem sha256Compress_length (st block : List Nat) :
    (sha256Compress st block).length = st.length := by
  unfold sha256Compress
  rw [List.length_zipWith, foldl_sha256Round_length]
  omega

theorem foldl_sha256Compress_length (bs : List (List Nat)) (st : List Nat) :
    (bs.foldl sha256Compress st).length = st.length := by
  induction bs generalizing st with
  | nil => rfl
  | cons b rest ih => rw [List.foldl_cons, ih, sha256Compress_length]

theorem flatMap_wordToBytes_length (l : List Nat) :
    (l.flatMap wordToBytes).length = 4 * l.length := by
  induction l with
  | nil => rfl
  | cons w rest ih =>
    rw [List.flatMap_cons, List.length_append, ih]
    simp only [wordToBytes, List.length_cons, List.length_nil]
    omega

/-- A SHA-256 digest is always exactly 32 bytes. -/
theorem sha256_length (msg : List Nat) : (sha256 msg).length = 32 := by
  unfold sha256
  rw [flatMap_wordToBytes_length, foldl_sha256Compress_length]
  rfl

/-- All entries of a SHA-256 digest are bytes. -/
theorem sha256_allBytes (msg : List Nat) : AllBytes (sha256 msg) := by
  intro b hb
  unfold sha256 at hb
  rw [List.mem_flatMap] at hb
  rcases hb with ⟨w, _, hw⟩
  simp only [wordToBytes, List.mem_cons, List.not_mem_nil, or_false] at hw
  rcases hw with h | h | h | h <;> subst h <;> exact Nat.mod_lt _ (by omega)

set_option maxHeartbeats 1000000 in
set_option maxRecDepth 100000 in
/-- FIPS 197 appendix C.3 AES-256 test vector. -/
theorem encryptBlock_fips197 :
    encryptBlock
      [0, 1, 2, 3, 4, 5, 6, 7, 8, 9, 10, 11, 12, 13, 14, 15, 16, 17, 18, 19,
       20, 21, 22, 23, 24, 25, 26, 27, 28, 29, 30, 31]
      [0, 17, 34, 51, 68, 85, 102, 119, 136, 153, 170, 187, 204, 221, 238, 255]
    = [142, 162, 183, 202, 81, 103, 69, 191, 234, 252, 73, 144, 75, 73, 96, 137] := by
  decide

theorem xor_lt256 {a b : Nat} (ha : a < 256) (hb : b < 256) : a ^^^ b < 256 := by
  have h : a ^^^ b < 2 ^ 8 :=
    Nat.xor_lt_two_pow (by omega : a < 2 ^ 8) (by omega : b < 2 ^ 8)
  omega

set_option maxRecDepth 10000 in
theorem invSbox_sbox_all :
    ((List.range 256).all fun b => invSbox (sbox b) == b) = true := by decide

theorem invSbox_sbox {b : Nat} (hb : b < 256) : invSbox (sbox b) = b :=
  eq_of_beq (List.all_eq_true.mp invSbox_sbox_all b (List.mem_range.mpr hb))

set_option maxRecDepth 10000 in
theorem sbox_lt_all :
    ((List.range 256).all fun b => decide (sbox b < 256)) = true := by decide

theorem sbox_lt {b : Nat} (hb : b < 256) : sbox b < 256 :=
  of_decide_eq_true (List.all_eq_true.mp sbox_lt_all b (List.mem_range.mpr hb))

theorem xtime_lt (b : Nat) : xtime b < 256 := by
  unfold xtime
  apply xor_lt256 (Nat.mod_lt _ (by omega))
  split <;> omega

set_option maxRecDepth 100000 in
set_option maxHeartbeats 8000000 in
theorem xtime_xor_all :
    ((List.range 256).all fun a => (List.range 256).all fun b =>
      xtime (a ^^^ b) == xtime a ^^^ xtime b) = true := by decide

theorem xtime_xor {a b : Nat} (ha : a < 256) (hb : b < 256) :
    xtime (a ^^^ b) = xtime a ^^^ xtime b :=
  eq_of_beq (List.all_eq_true.mp
    (List.all_eq_true.mp xtime_xor_all a (List.mem_range.mpr ha))
    b (List.mem_range.mpr hb))

theorem gmul2_lt (b : Nat) : gmul2 b < 256 := xtime_lt b

theorem gmul3_lt {b : Nat} (hb : b < 256) : gmul3 b < 256 :=
  xor_lt256 (xtime_lt b) hb

theorem gmul9_lt {b : Nat} (hb : b < 256) : gmul9 b < 256 :=
  xor_lt256 (xtime_lt _) hb

theorem gmul11_lt {b : Nat} (hb : b < 256) : gmul11 b < 256 :=
  xor_lt256 (xtime_lt _) (xor_lt256 (xtime_lt _) hb)

theorem gmul13_lt {b : Nat} (hb : b < 256) : gmul13 b < 256 :=
  xor_lt256 (xtime_lt _) (xor_lt256 (xtime_lt _) hb)

theorem gmul14_lt (b : Nat) : gmul14 b < 256 :=
  xor_lt256 (xtime_lt _) (xor_lt256 (xtime_lt _) (xtime_lt _))

theorem xtime3_xor {a b : Nat} (ha : a < 256) (hb : b < 256) :
    xtime (xtime (xtime (a ^^^ b)))
      = xtime (xtime (xtime a)) ^^^ xtime (xtime (xtime b)) := by
  rw [xtime_xor ha hb, xtime_xor (xtime_lt a) (xtime_lt b),
    xtime_xor (xtime_lt _) (xtime_lt _)]

theorem gmul2_xor {a b : Nat} (ha : a < 256) (hb : b < 256) :
    gmul2 (a ^^^ b) = gmul2 a ^^^ gmul2 b := xtime_xor ha hb

theorem gmul3_xor {a b : Nat} (ha : a < 256) (hb : b < 256) :
    gmul3 (a ^^^ b) = gmul3 a ^^^ gmul3 b := by
  unfold gmul3
  rw [xtime_xor ha hb]
  ac_rfl

theorem gmul9_xor {a b : Nat} (ha : a < 256) (hb : b < 256) :
    gmul9 (a ^^^ b) = gmul9 a ^^^ gmul9 b := by
  unfold gmul9
  rw [xtime3_xor ha hb]
  ac_rfl

theorem gmul11_xor {a b : Nat} (ha : a < 256) (hb : b < 256) :
    gmul11 (a ^^^ b) = gmul11 a ^^^ gmul11 b := by
  unfold gmul11
  rw [xtime3_xor ha hb, xtime_xor ha hb]
  ac_rfl

theorem gmul13_xor {a b : Nat} (ha : a < 256) (hb : b < 256) :
    gmul13 (a ^^^ b) = gmul13 a ^^^ gmul13 b := by
  unfold gmul13
  rw [xtime3_xor ha hb, xtime_xor ha hb, xtime_xor (xtime_lt a) (xtime_lt b)]
  ac_rfl

theorem gmul14_xor {a b : Nat} (ha : a < 256) (hb : b < 256) :
    gmul14 (a ^^^ b) = gmul14 a ^^^ gmul14 b := by
  unfold gmul14
  rw [xtime3_xor ha hb, xtime_xor ha hb, xtime_xor (xtime_lt a) (xtime_lt b)]
  ac_rfl

set_option maxRecDepth 10000 in
set_option maxHeartbeats 1000000 in
theorem invMixA_all :
    ((List.range 256).all fun x =>
      gmul14 (gmul2 x) ^^^ gmul11 x ^^^ gmul13 x ^^^ gmul9 (gmul3 x) == x) = true := by
  decide

theorem invMixA {x : Nat} (hx : x < 256) :
    gmul14 (gmul2 x) ^^^ gmul11 x ^^^ gmul13 x ^^^ gmul9 (gmul3 x) = x :=
  eq_of_beq (List.all_eq_true.mp invMixA_all x (List.mem_range.mpr hx))

set_option maxRecDepth 10000 in
set_option maxHeartbeats 1000000 in
theorem invMixB_all :
    ((List.range 256).all fun x =>
      gmul14 (gmul3 x) ^^^ gmul11 (gmul2 x) ^^^ gmul13 x ^^^ gmul9 x == 0) = true := by
  decide

theorem invMixB {x : Nat} (hx : x < 256) :
    gmul14 (gmul3 x) ^^^ gmul11 (gmul2 x) ^^^ gmul13 x ^^^ gmul9 x = 0 :=
  eq_of_beq (List.all_eq_true.mp invMixB_all x (List.mem_range.mpr hx))

set_option maxRecDepth 10000 in
set_option maxHeartbeats 1000000 in
theorem invMixC_all :
    ((List.range 256).all fun x =>
      gmul14 x ^^^ gmul11 (gmul3 x) ^^^ gmul13 (gmul2 x) ^^^ gmul9 x == 0) = true := by
  decide

theorem invMixC {x : Nat} (hx : x < 256) :
    gmul14 x ^^^ gmul11 (gmul3 x) ^^^ gmul13 (gmul2 x) ^^^ gmul9 x = 0 :=
  eq_of_beq (List.all_eq_true.mp invMixC_all x (List.mem_range.mpr hx))

set_option maxRecDepth 10000 in
set_option maxHeartbeats 1000000 in
theorem invMixD_all :
    ((List.range 256).all fun x =>
      gmul14 x ^^^ gmul11 x ^^^ gmul13 (gmul3 x) ^^^ gmul9 (gmul2 x) == 0) = true := by
  decide

theorem invMixD {x : Nat} (hx : x < 256) :
    gmul14 x ^^^ gmul11 x ^^^ gmul13 (gmul3 x) ^^^ gmul9 (gmul2 x) = 0 :=
  eq_of_beq (List.all_eq_true.mp invMixD_all x (List.mem_range.mpr hx))

theorem gmul14_xor4 {w x y z : Nat} (hw : w < 256) (hx : x < 256)
    (hy : y < 256) (hz : z < 256) :
    gmul14 (w ^^^ x ^^^ y ^^^ z) = gmul14 w ^^^ gmul14 x ^^^ gmul14 y ^^^ gmul14 z := by
  rw [gmul14_xor (xor_lt256 (xor_lt256 hw hx) hy) hz,
    gmul14_xor (xor_lt256 hw hx) hy, gmul14_xor hw hx]

theorem gmul11_xor4 {w x y z : Nat} (hw : w < 256) (hx : x < 256)
    (hy : y < 256) (hz : z < 256) :
    gmul11 (w ^^^ x ^^^ y ^^^ z) = gmul11 w ^^^ gmul11 x ^^^ gmul11 y ^^^ gmul11 z := by
  rw [gmul11_xor (xor_lt256 (xor_lt256 hw hx) hy) hz,
    gmul11_xor (xor_lt256 hw hx) hy, gmul11_xor hw hx]

theorem gmul13_xor4 {w x y z : Nat} (hw : w < 256) (hx : x < 256)
    (hy : y < 256) (hz : z < 256) :
    gmul13 (w ^^^ x ^^^ y ^^^ z) = gmul13 w ^^^ gmul13 x ^^^ gmul13 y ^^^ gmul13 z := by
  rw [gmul13_xor (xor_lt256 (xor_lt256 hw hx) hy) hz,
    gmul13_xor (xor_lt256 hw hx) hy, gmul13_xor hw hx]

theorem gmul9_xor4 {w x y z : Nat} (hw : w < 256) (hx : x < 256)
    (hy : y < 256) (hz : z < 256) :
    gmul9 (w ^^^ x ^^^ y ^^^ z) = gmul9 w ^^^ gmul9 x ^^^ gmul9 y ^^^ gmul9 z := by
  rw [gmul9_xor (xor_lt256 (xor_lt256 hw hx) hy) hz,
    gmul9_xor (xor_lt256 hw hx) hy, gmul9_xor hw hx]

/-- Inverse MixColumns inverts MixColumns on one column of bytes. -/
theorem invMixColumn_mixColumn {a b c d : Nat} (ha : a < 256) (hb : b < 256)
    (hc : c < 256) (hd : d < 256) :
    invMixColumn (gmul2 a ^^^ gmul3 b ^^^ c ^^^ d) (a ^^^ gmul2 b ^^^ gmul3 c ^^^ d)
      (a ^^^ b ^^^ gmul2 c ^^^ gmul3 d) (gmul3 a ^^^ b ^^^ c ^^^ gmul2 d)
      = [a, b, c, d] := by
  have h2a := gmul2_lt a
  have h2b := gmul2_lt b
  have h2c := gmul2_lt c
  have h2d := gmul2_lt d
  have h3a := gmul3_lt ha
  have h3b := gmul3_lt hb
  have h3c := gmul3_lt hc
  have h3d := gmul3_lt hd
  unfold invMixColumn
  simp only [List.cons.injEq, and_true]
  refine ⟨?_, ?_, ?_, ?_⟩
  · rw [gmul14_xor4 h2a h3b hc hd, gmul11_xor4 ha h2b h3c hd,
      gmul13_xor4 ha hb h2c h3d, gmul9_xor4 h3a hb hc h2d]
    have key : a =
        (gmul14 (gmul2 a) ^^^ gmul11 a ^^^ gmul13 a ^^^ gmul9 (gmul3 a)) ^^^
        ((gmul14 (gmul3 b) ^^^ gmul11 (gmul2 b) ^^^ gmul13 b ^^^ gmul9 b) ^^^
        ((gmul14 c ^^^ gmul11 (gmul3 c) ^^^ gmul13 (gmul2 c) ^^^ gmul9 c) ^^^
         (gmul14 d ^^^ gmul11 d ^^^ gmul13 (gmul3 d) ^^^ gmul9 (gmul2 d)))) := by
      rw [invMixA ha, invMixB hb, invMixC hc, invMixD hd]
      simp
    conv_rhs => rw [key]
    ac_rfl
  · rw [gmul9_xor4 h2a h3b hc hd, gmul14_xor4 ha h2b h3c hd,
      gmul11_xor4 ha hb h2c h3d, gmul13_xor4 h3a hb hc h2d]
    have key : b =
        (gmul14 a ^^^ gmul11 a ^^^ gmul13 (gmul3 a) ^^^ gmul9 (gmul2 a)) ^^^
        ((gmul14 (gmul2 b) ^^^ gmul11 b ^^^ gmul13 b ^^^ gmul9 (gmul3 b)) ^^^
        ((gmul14 (gmul3 c) ^^^ gmul11 (gmul2 c) ^^^ gmul13 c ^^^ gmul9 c) ^^^
         (gmul14 d ^^^ gmul11 (gmul3 d) ^^^ gmul13 (gmul2 d) ^^^ gmul9 d))) := by
      rw [invMixD ha, invMixA hb, invMixB hc, invMixC hd]
      simp
    conv_rhs => rw [key]
    ac_rfl
  · rw [gmul13_xor4 h2a h3b hc hd, gmul9_xor4 ha h2b h3c hd,
      gmul14_xor4 ha hb h2c h3d, gmul11_xor4 h3a hb hc h2d]
    have key : c =
        (gmul14 a ^^^ gmul11 (gmul3 a) ^^^ gmul13 (gmul2 a) ^^^ gmul9 a) ^^^
        ((gmul14 b ^^^ gmul11 b ^^^ gmul13 (gmul3 b) ^^^ gmul9 (gmul2 b)) ^^^
        ((gmul14 (gmul2 c) ^^^ gmul11 c ^^^ gmul13 c ^^^ gmul9 (gmul3 c)) ^^^
         (gmul14 (gmul3 d) ^^^ gmul11 (gmul2 d) ^^^ gmul13 d ^^^ gmul9 d))) := by
      rw [invMixC ha, invMixD hb, invMixA hc, invMixB hd]
      simp
    conv_rhs => rw [key]
    ac_rfl
  · rw [gmul11_xor4 h2a h3b hc hd, gmul13_xor4 ha h2b h3c hd,
      gmul9_xor4 ha hb h2c h3d, gmul14_xor4 h3a hb hc h2d]
    have key : d =
        (gmul14 (gmul3 a) ^^^ gmul11 (gmul2 a) ^^^ gmul13 a ^^^ gmul9 a) ^^^
        ((gmul14 b ^^^ gmul11 (gmul3 b) ^^^ gmul13 (gmul2 b) ^^^ gmul9 b) ^^^
        ((gmul14 c ^^^ gmul11 c ^^^ gmul13 (gmul3 c) ^^^ gmul9 (gmul2 c)) ^^^
         (gmul14 (gmul2 d) ^^^ gmul11 d ^^^ gmul13 d ^^^ gmul9 (gmul3 d)))) := by
      rw [invMixB ha, invMixC hb, invMixD hc, invMixA hd]
      simp
    conv_rhs => rw [key]
    ac_rfl

theorem getD_mem {α : Type} (l : List α) (n : Nat) (d : α) (h : n < l.length) :
    l.getD n d ∈ l := by
  rw [List.getD_eq_getElem?_getD, List.getElem?_eq_getElem h, Option.getD_some]
  exact List.getElem_mem h

theorem xorBytes_length (a b : List Nat) :
    (xorBytes a b).length = min a.length b.length := by
  simp [xorBytes]

theorem xorBytes_allBytes : ∀ a b : List Nat, AllBytes a → AllBytes b →
    AllBytes (xorBytes a b)
  | [], _, _, _ => by intro x hx; simp [xorBytes] at hx
  | _ :: _, [], _, _ => by intro x hx; simp [xorBytes] at hx
  | a :: as, b :: bs, ha, hb => by
    intro x hx
    simp only [xorBytes, List.zipWith_cons_cons, List.mem_cons] at hx
    rcases hx with h | h
    · subst h
      exact xor_lt256 (ha a (by simp)) (hb b (by simp))
    · exact xorBytes_allBytes as bs (fun y hy => ha y (by simp [hy]))
        (fun y hy => hb y (by simp [hy])) x h

theorem xorBytes_cancel : ∀ (st rk : List Nat), st.length ≤ rk.length →
    xorBytes (xorBytes st rk) rk = st
  | [], _, _ => rfl
  | s :: t, [], h => by simp at h
  | s :: t, r :: rs, h => by
    simp only [xorBytes, List.zipWith_cons_cons]
    rw [Nat.xor_cancel_right]
    exact congrArg (s :: ·) (xorBytes_cancel t rs (by simpa using h))

theorem addRoundKey_cancel (rk st : List Nat) (h : st.length ≤ rk.length) :
    addRoundKey rk (addRoundKey rk st) = st := xorBytes_cancel st rk h

theorem addRoundKey_length (rk st : List Nat) :
    (addRoundKey rk st).length = min st.length rk.length := xorBytes_length st rk

theorem addRoundKey_allBytes (rk st : List Nat) (hr : AllBytes rk)
    (hs : AllBytes st) : AllBytes (addRoundKey rk st) := xorBytes_allBytes st rk hs hr

theorem subBytes_length (st : List Nat) : (subBytes st).length = st.length :=
  List.length_map st sbox

theorem subBytes_allBytes (st : List Nat) (h : AllBytes st) :
    AllBytes (subBytes st) := by
  intro b hb
  rcases List.mem_map.mp hb with ⟨x, hx, hb2⟩
  exact hb2 ▸ sbox_lt (h x hx)

theorem invSubBytes_subBytes (st : List Nat) (h : AllBytes st) :
    invSubBytes (subBytes st) = st := by
  unfold invSubBytes subBytes
  rw [List.map_map]
  have h2 : ∀ x ∈ st, (invSbox ∘ sbox) x = id x := fun x hx => invSbox_sbox (h x hx)
  rw [List.map_congr_left h2, List.map_id]

theorem invShiftRows_shiftRows (st : List Nat) :
    invShiftRows (shiftRows st) = st := by
  rcases st with _ | ⟨s0, _ | ⟨s1, _ | ⟨s2, _ | ⟨s3, _ | ⟨s4, _ | ⟨s5, _ | ⟨s6, _ | ⟨s7, _ | ⟨s8, _ | ⟨s9, _ | ⟨s10, _ | ⟨s11, _ | ⟨s12, _ | ⟨s13, _ | ⟨s14, _ | ⟨s15, _ | ⟨s16, t⟩⟩⟩⟩⟩⟩⟩⟩⟩⟩⟩⟩⟩⟩⟩⟩⟩ <;> rfl

theorem shiftRows_length (st : List Nat) : (shiftRows st).length = st.length := by
  rcases st with _ | ⟨s0, _ | ⟨s1, _ | ⟨s2, _ | ⟨s3, _ | ⟨s4, _ | ⟨s5, _ | ⟨s6, _ | ⟨s7, _ | ⟨s8, _ | ⟨s9, _ | ⟨s10, _ | ⟨s11, _ | ⟨s12, _ | ⟨s13, _ | ⟨s14, _ | ⟨s15, _ | ⟨s16, t⟩⟩⟩⟩⟩⟩⟩⟩⟩⟩⟩⟩⟩⟩⟩⟩⟩ <;> rfl

theorem shiftRows_allBytes (st : List Nat) (h : AllBytes st) :
    AllBytes (shiftRows st) := by
  rcases st with _ | ⟨s0, _ | ⟨s1, _ | ⟨s2, _ | ⟨s3, _ | ⟨s4, _ | ⟨s5, _ | ⟨s6, _ | ⟨s7, _ | ⟨s8, _ | ⟨s9, _ | ⟨s10, _ | ⟨s11, _ | ⟨s12, _ | ⟨s13, _ | ⟨s14, _ | ⟨s15, _ | ⟨s16, t⟩⟩⟩⟩⟩⟩⟩⟩⟩⟩⟩⟩⟩⟩⟩⟩⟩ <;>
    first
      | exact h
      | (intro b hb
         apply h b
         simp only [shiftRows, List.mem_cons, List.not_mem_nil, or_false] at hb ⊢
         tauto)

theorem mixColumn_allBytes {a b c d : Nat} (ha : a < 256) (hb : b < 256)
    (hc : c < 256) (hd : d < 256) : AllBytes (mixColumn a b c d) := by
  intro x hx
  simp only [mixColumn, List.mem_cons, List.not_mem_nil, or_false] at hx
  rcases hx with h | h | h | h <;> subst h
  · exact xor_lt256 (xor_lt256 (xor_lt256 (gmul2_lt a) (gmul3_lt hb)) hc) hd
  · exact xor_lt256 (xor_lt256 (xor_lt256 ha (gmul2_lt b)) (gmul3_lt hc)) hd
  · exact xor_lt256 (xor_lt256 (xor_lt256 ha hb) (gmul2_lt c)) (gmul3_lt hd)
  · exact xor_lt256 (xor_lt256 (xor_lt256 (gmul3_lt ha) hb) hc) (gmul2_lt d)

theorem mixColumns_length (st : List Nat) : (mixColumns st).length = st.length := by
  rcases st with _ | ⟨s0, _ | ⟨s1, _ | ⟨s2, _ | ⟨s3, _ | ⟨s4, _ | ⟨s5, _ | ⟨s6, _ | ⟨s7, _ | ⟨s8, _ | ⟨s9, _ | ⟨s10, _ | ⟨s11, _ | ⟨s12, _ | ⟨s13, _ | ⟨s14, _ | ⟨s15, _ | ⟨s16, t⟩⟩⟩⟩⟩⟩⟩⟩⟩⟩⟩⟩⟩⟩⟩⟩⟩ <;> rfl

theorem mixColumns_allBytes (st : List Nat) (h : AllBytes st) :
    AllBytes (mixColumns st) := by
  rcases st with _ | ⟨s0, _ | ⟨s1, _ | ⟨s2, _ | ⟨s3, _ | ⟨s4, _ | ⟨s5, _ | ⟨s6, _ | ⟨s7, _ | ⟨s8, _ | ⟨s9, _ | ⟨s10, _ | ⟨s11, _ | ⟨s12, _ | ⟨s13, _ | ⟨s14, _ | ⟨s15, _ | ⟨s16, t⟩⟩⟩⟩⟩⟩⟩⟩⟩⟩⟩⟩⟩⟩⟩⟩⟩ <;>
    first
      | exact h
      | (intro x hx
         have h0 : s0 < 256 := h s0 (by simp)
         have h1 : s1 < 256 := h s1 (by simp)
         have h2 : s2 < 256 := h s2 (by simp)
         have h3 : s3 < 256 := h s3 (by simp)
         have h4 : s4 < 256 := h s4 (by simp)
         have h5 : s5 < 256 := h s5 (by simp)
         have h6 : s6 < 256 := h s6 (by simp)
         have h7 : s7 < 256 := h s7 (by simp)
         have h8 : s8 < 256 := h s8 (by simp)
         have h9 : s9 < 256 := h s9 (by simp)
         have h10 : s10 < 256 := h s10 (by simp)
         have h11 : s11 < 256 := h s11 (by simp)
         have h12 : s12 < 256 := h s12 (by simp)
         have h13 : s13 < 256 := h s13 (by simp)
         have h14 : s14 < 256 := h s14 (by simp)
         have h15 : s15 < 256 := h s15 (by simp)
         simp only [mixColumns, List.mem_append] at hx
         rcases hx with ((hx | hx) | hx) | hx
         · exact mixColumn_allBytes h0 h1 h2 h3 x hx
         · exact mixColumn_allBytes h4 h5 h6 h7 x hx
         · exact mixColumn_allBytes h8 h9 h10 h11 x hx
         · exact mixColumn_allBytes h12 h13 h14 h15 x hx)

theorem getD_lt_256 (l : List Nat) (n d : Nat) (hl : ∀ b ∈ l, b < 256)
    (hd : d < 256) : l.getD n d < 256 := by
  rcases Nat.lt_or_ge n l.length with h | h
  · exact hl _ (getD_mem l n d h)
  · rw [List.getD_eq_getElem?_getD, List.getElem?_eq_none h, Option.getD_none]
    exact hd

theorem rconVal_lt (i : Nat) : rconVal i < 256 := by
  unfold rconVal
  apply getD_lt_256
  · decide
  · decide

theorem rotWord_length (w : List Nat) : (rotWord w).length = w.length := by
  rcases w with _ | ⟨a, _ | ⟨b, _ | ⟨c, _ | ⟨d, _ | ⟨e, t⟩⟩⟩⟩⟩ <;> rfl

theorem rotWord_allBytes (w : List Nat) (h : AllBytes w) : AllBytes (rotWord w) := by
  rcases w with _ | ⟨a, _ | ⟨b, _ | ⟨c, _ | ⟨d, _ | ⟨e, t⟩⟩⟩⟩⟩ <;>
    first
      | exact h
      | (intro x hx
         apply h x
         simp only [rotWord, List.mem_cons, List.not_mem_nil, or_false] at hx ⊢
         tauto)

theorem subWord_length (w : List Nat) : (subWord w).length = w.length :=
  List.length_map w sbox

theorem subWord_allBytes (w : List Nat) (h : AllBytes w) : AllBytes (subWord w) := by
  intro b hb
  rcases List.mem_map.mp hb with ⟨x, hx, hb2⟩
  exact hb2 ▸ sbox_lt (h x hx)

theorem nextWord_valid (key : List Nat) (ws : List (List Nat)) (n : Nat)
    (h32 : key.length = 32) (hB : AllBytes key) (hlen : ws.length = n)
    (hmem : ∀ w ∈ ws, w.length = 4 ∧ AllBytes w) :
    (nextWord key ws n).length = 4 ∧ AllBytes (nextWord key ws n) := by
  unfold nextWord
  split
  · constructor
    · simp only [List.length_take, List.length_drop, h32]
      omega
    · intro b hb
      exact hB b (List.mem_of_mem_drop (List.mem_of_mem_take hb))
  · rename_i hn8
    have hprev : ws.getD (n - 1) [] ∈ ws := getD_mem ws (n - 1) [] (by omega)
    have hold : ws.getD (n - 8) [] ∈ ws := getD_mem ws (n - 8) [] (by omega)
    obtain ⟨hp4, hpB⟩ := hmem _ hprev
    obtain ⟨ho4, hoB⟩ := hmem _ hold
    have ht : ∀ t : List Nat, t.length = 4 → AllBytes t →
        (xorBytes (ws.getD (n - 8) []) t).length = 4 ∧
          AllBytes (xorBytes (ws.getD (n - 8) []) t) := by
      intro t ht4 htB
      refine ⟨?_, xorBytes_allBytes _ _ hoB htB⟩
      rw [xorBytes_length, ho4, ht4]
      omega
    split
    · apply ht
      · rw [xorBytes_length, subWord_length, rotWord_length, hp4]
        simp
      · apply xorBytes_allBytes
        · exact subWord_allBytes _ (rotWord_allBytes _ hpB)
        · intro b hb
          simp only [List.mem_cons, List.not_mem_nil, or_false] at hb
          rcases hb with h | h | h | h <;> subst h <;>
            first
              | exact rconVal_lt _
              | omega
    · split
      · apply ht
        · rw [subWord_length, hp4]
        · exact subWord_allBytes _ hpB
      · exact ht _ hp4 hpB

theorem keyScheduleWords_valid (key : List Nat) (h32 : key.length = 32)
    (hB : AllBytes key) (n : Nat) :
    (keyScheduleWords key n).length = n ∧
      ∀ w ∈ keyScheduleWords key n, w.length = 4 ∧ AllBytes w := by
  induction n with
  | zero =>
    refine ⟨rfl, ?_⟩
    intro w hw
    simp [keyScheduleWords] at hw
  | succ m ih =>
    obtain ⟨ihlen, ihmem⟩ := ih
    constructor
    · show (keyScheduleWords key m ++ [nextWord key (keyScheduleWords key m) m]).length = m + 1
      rw [List.length_append, ihlen]
      rfl
    · intro w hw
      rcases List.mem_append.mp hw with h | h
      · exact ihmem w h
      · have hw2 : w = nextWord key (keyScheduleWords key m) m := by
          simpa using h
        subst hw2
        exact nextWord_valid key _ m h32 hB ihlen ihmem

theorem roundKeys_length (key : List Nat) : (roundKeys key).length = 15 := by
  simp [roundKeys]

theorem roundKeys_valid (key : List Nat) (h32 : key.length = 32)
    (hB : AllBytes key) : ∀ rk ∈ roundKeys key, rk.length = 16 ∧ AllBytes rk := by
  intro rk hrk
  obtain ⟨r, hr, hrk2⟩ := List.mem_map.mp hrk
  have hr15 : r < 15 := List.mem_range.mp hr
  obtain ⟨hlen, hmem⟩ := keyScheduleWords_valid key h32 hB 60
  have w0 := hmem _ (getD_mem _ (4 * r) [] (by omega))
  have w1 := hmem _ (getD_mem _ (4 * r + 1) [] (by omega))
  have w2 := hmem _ (getD_mem _ (4 * r + 2) [] (by omega))
  have w3 := hmem _ (getD_mem _ (4 * r + 3) [] (by omega))
  subst hrk2
  constructor
  · rw [List.length_append, List.length_append, List.length_append,
      w0.1, w1.1, w2.1, w3.1]
  · intro b hb
    rcases List.mem_append.mp hb with hx | hx
    · rcases List.mem_append.mp hx with hy | hy
      · rcases List.mem_append.mp hy with hz | hz
        · exact w0.2 b hz
        · exact w1.2 b hz
      · exact w2.2 b hy
    · exact w3.2 b hx

theorem invMixColumns_mixColumns (st : List Nat) (h : AllBytes st) :
    invMixColumns (mixColumns st) = st := by
  rcases st with _ | ⟨s0, _ | ⟨s1, _ | ⟨s2, _ | ⟨s3, _ | ⟨s4, _ | ⟨s5, _ | ⟨s6, _ | ⟨s7, _ | ⟨s8, _ | ⟨s9, _ | ⟨s10, _ | ⟨s11, _ | ⟨s12, _ | ⟨s13, _ | ⟨s14, _ | ⟨s15, _ | ⟨s16, t⟩⟩⟩⟩⟩⟩⟩⟩⟩⟩⟩⟩⟩⟩⟩⟩⟩ <;>
    first
      | rfl
      | (have h0 : s0 < 256 := h s0 (by simp)
         have h1 : s1 < 256 := h s1 (by simp)
         have h2 : s2 < 256 := h s2 (by simp)
         have h3 : s3 < 256 := h s3 (by simp)
         have h4 : s4 < 256 := h s4 (by simp)
         have h5 : s5 < 256 := h s5 (by simp)
         have h6 : s6 < 256 := h s6 (by simp)
         have h7 : s7 < 256 := h s7 (by simp)
         have h8 : s8 < 256 := h s8 (by simp)
         have h9 : s9 < 256 := h s9 (by simp)
         have h10 : s10 < 256 := h s10 (by simp)
         have h11 : s11 < 256 := h s11 (by simp)
         have h12 : s12 < 256 := h s12 (by simp)
         have h13 : s13 < 256 := h s13 (by simp)
         have h14 : s14 < 256 := h s14 (by simp)
         have h15 : s15 < 256 := h s15 (by simp)
         show invMixColumns
            (mixColumn s0 s1 s2 s3 ++ mixColumn s4 s5 s6 s7
              ++ mixColumn s8 s9 s10 s11 ++ mixColumn s12 s13 s14 s15) = _
         simp only [mixColumn, List.cons_append, List.nil_append]
         show invMixColumn _ _ _ _ ++ invMixColumn _ _ _ _
            ++ invMixColumn _ _ _ _ ++ invMixColumn _ _ _ _ = _
         rw [invMixColumn_mixColumn h0 h1 h2 h3, invMixColumn_mixColumn h4 h5 h6 h7,
           invMixColumn_mixColumn h8 h9 h10 h11, invMixColumn_mixColumn h12 h13 h14 h15]
         rfl)

theorem aesRound_length (rk st : List Nat) (hrk : rk.length = 16)
    (hst : st.length = 16) : (aesRound rk st).length = 16 := by
  unfold aesRound
  rw [addRoundKey_length, mixColumns_length, shiftRows_length, subBytes_length,
    hst, hrk]
  omega

theorem aesRound_allBytes (rk st : List Nat) (hrkB : AllBytes rk)
    (hstB : AllBytes st) : AllBytes (aesRound rk st) :=
  addRoundKey_allBytes _ _ hrkB
    (mixColumns_allBytes _ (shiftRows_allBytes _ (subBytes_allBytes _ hstB)))

theorem foldl_aesRound_valid (ks : List (List Nat)) (st : List Nat)
    (hks : ∀ k ∈ ks, k.length = 16 ∧ AllBytes k)
    (h16 : st.length = 16) (hB : AllBytes st) :
    (ks.foldl (fun s k => aesRound k s) st).length = 16 ∧
      AllBytes (ks.foldl (fun s k => aesRound k s) st) := by
  induction ks generalizing st with
  | nil => exact ⟨h16, hB⟩
  | cons k t ih =>
    obtain ⟨hk16, hkB⟩ := hks k (List.mem_cons_self k t)
    simp only [List.foldl_cons]
    exact ih _ (fun x hx => hks x (List.mem_cons_of_mem k hx))
      (aesRound_length k st hk16 h16) (aesRound_allBytes k st hkB hB)

theorem invRounds_rounds (ks : List (List Nat)) (st : List Nat)
    (hks : ∀ k ∈ ks, k.length = 16 ∧ AllBytes k)
    (h16 : st.length = 16) (hB : AllBytes st) :
    ks.reverse.foldl (fun s k => invAesRound k s)
      (shiftRows (subBytes (ks.foldl (fun s k => aesRound k s) st)))
      = shiftRows (subBytes st) := by
  induction ks generalizing st with
  | nil => rfl
  | cons k t ih =>
    obtain ⟨hk16, hkB⟩ := hks k (List.mem_cons_self k t)
    have ht : ∀ x ∈ t, x.length = 16 ∧ AllBytes x :=
      fun x hx => hks x (List.mem_cons_of_mem k hx)
    have hr16 : (aesRound k st).length = 16 := aesRound_length k st hk16 h16
    have hrB : AllBytes (aesRound k st) := aesRound_allBytes k st hkB hB
    rw [List.reverse_cons, List.foldl_append]
    have hstep : List.foldl (fun s k => aesRound k s) st (k :: t)
        = List.foldl (fun s k => aesRound k s) (aesRound k st) t := rfl
    rw [hstep, ih (aesRound k st) ht hr16 hrB]
    show invAesRound k (shiftRows (subBytes (aesRound k st))) = shiftRows (subBytes st)
    show invMixColumns (addRoundKey k (invSubBytes
      (invShiftRows (shiftRows (subBytes (aesRound k st)))))) = shiftRows (subBytes st)
    rw [invShiftRows_shiftRows, invSubBytes_subBytes _ hrB]
    show invMixColumns (addRoundKey k (addRoundKey k
      (mixColumns (shiftRows (subBytes st))))) = shiftRows (subBytes st)
    rw [addRoundKey_cancel k _ (by
      rw [mixColumns_length, shiftRows_length, subBytes_length, h16, hk16])]
    exact invMixColumns_mixColumns _
      (shiftRows_allBytes _ (subBytes_allBytes _ hB))

theorem encryptBlock_valid (key block : List Nat) (h32 : key.length = 32)
    (hkB : AllBytes key) (hb16 : block.length = 16) (hbB : AllBytes block) :
    (encryptBlock key block).length = 16 ∧ AllBytes (encryptBlock key block) := by
  have hks := roundKeys_valid key h32 hkB
  have h0 := hks _ (getD_mem (roundKeys key) 0 [] (by rw [roundKeys_length]; omega))
  have h14 := hks _ (getD_mem (roundKeys key) 14 [] (by rw [roundKeys_length]; omega))
  have hmids : ∀ k ∈ ((roundKeys key).drop 1).take 13, k.length = 16 ∧ AllBytes k :=
    fun k hk => hks k (List.mem_of_mem_drop (List.mem_of_mem_take hk))
  have hst16 : (addRoundKey ((roundKeys key).getD 0 []) block).length = 16 := by
    rw [addRoundKey_length, hb16, h0.1]
    omega
  have hstB : AllBytes (addRoundKey ((roundKeys key).getD 0 []) block) :=
    addRoundKey_allBytes _ _ h0.2 hbB
  obtain ⟨hm16, hmB⟩ := foldl_aesRound_valid _ _ hmids hst16 hstB
  constructor
  · show (aesFinalRound ((roundKeys key).getD 14 [])
      ((((roundKeys key).drop 1).take 13).foldl (fun st k => aesRound k st)
        (addRoundKey ((roundKeys key).getD 0 []) block))).length = 16
    unfold aesFinalRound
    rw [addRoundKey_length, shiftRows_length, subBytes_length, hm16, h14.1]
    omega
  · show AllBytes (aesFinalRound ((roundKeys key).getD 14 [])
      ((((roundKeys key).drop 1).take 13).foldl (fun st k => aesRound k st)
        (addRoundKey ((roundKeys key).getD 0 []) block)))
    exact addRoundKey_allBytes _ _ h14.2
      (shiftRows_allBytes _ (subBytes_allBytes _ hmB))

/-- AES-256 block decryption inverts block encryption, for every 32-byte key
and 16-byte block. -/
theorem decryptBlock_encryptBlock (key block : List Nat) (h32 : key.length = 32)
    (hkB : AllBytes key) (hb16 : block.length = 16) (hbB : AllBytes block) :
    decryptBlock key (encryptBlock key block) = block := by
  have hks := roundKeys_valid key h32 hkB
  have h0 := hks _ (getD_mem (roundKeys key) 0 [] (by rw [roundKeys_length]; omega))
  have h14 := hks _ (getD_mem (roundKeys key) 14 [] (by rw [roundKeys_length]; omega))
  have hmids : ∀ k ∈ ((roundKeys key).drop 1).take 13, k.length = 16 ∧ AllBytes k :=
    fun k hk => hks k (List.mem_of_mem_drop (List.mem_of_mem_take hk))
  have hst16 : (addRoundKey ((roundKeys key).getD 0 []) block).length = 16 := by
    rw [addRoundKey_length, hb16, h0.1]
    omega
  have hstB : AllBytes (addRoundKey ((roundKeys key).getD 0 []) block) :=
    addRoundKey_allBytes _ _ h0.2 hbB
  obtain ⟨hm16, hmB⟩ := foldl_aesRound_valid _ _ hmids hst16 hstB
  have hinner : addRoundKey ((roundKeys key).getD 14 []) (encryptBlock key block)
      = shiftRows (subBytes ((((roundKeys key).drop 1).take 13).foldl
          (fun st k => aesRound k st) (addRoundKey ((roundKeys key).getD 0 []) block))) := by
    show addRoundKey ((roundKeys key).getD 14 [])
      (addRoundKey ((roundKeys key).getD 14 [])
        (shiftRows (subBytes ((((roundKeys key).drop 1).take 13).foldl
          (fun st k => aesRound k st)
          (addRoundKey ((roundKeys key).getD 0 []) block))))) = _
    exact addRoundKey_cancel _ _ (by
      rw [shiftRows_length, subBytes_length, hm16, h14.1])
  show addRoundKey ((roundKeys key).getD 0 [])
    (invSubBytes (invShiftRows
      (((((roundKeys key).drop 1).take 13).reverse).foldl (fun st k => invAesRound k st)
        (addRoundKey ((roundKeys key).getD 14 []) (encryptBlock key block))))) = block
  rw [hinner, invRounds_rounds _ _ hmids hst16 hstB, invShiftRows_shiftRows,
    invSubBytes_subBytes _ hstB]
  exact addRoundKey_cancel _ _ (by rw [hb16, h0.1])

theorem toBlocks16Go_count (n : Nat) : ∀ l, (toBlocks16Go n l).length = n := by
  induction n with
  | zero => intro l; rfl
  | succ m ih =>
    intro l
    simp only [toBlocks16Go, List.length_cons, ih]

theorem toBlocks16Go_mem : ∀ (n : Nat) (l : List Nat), l.length = 16 * n →
    ∀ b ∈ toBlocks16Go n l, b.length = 16 ∧ ∀ x ∈ b, x ∈ l := by
  intro n
  induction n with
  | zero => intro l _ b hb; simp [toBlocks16Go] at hb
  | succ m ih =>
    intro l hl b hb
    simp only [toBlocks16Go, List.mem_cons] at hb
    rcases hb with h | h
    · subst h
      constructor
      · rw [List.length_take]
        omega
      · intro x hx
        exact List.mem_of_mem_take hx
    · have hrest := ih (l.drop 16) (by rw [List.length_drop]; omega) b h
      exact ⟨hrest.1, fun x hx => List.mem_of_mem_drop (hrest.2 x hx)⟩

theorem toBlocks16Go_flatten : ∀ (n : Nat) (l : List Nat), l.length = 16 * n →
    (toBlocks16Go n l).flatten = l := by
  intro n
  induction n with
  | zero =>
    intro l hl
    have : l = [] := List.eq_nil_of_length_eq_zero (by omega)
    simp [toBlocks16Go, this]
  | succ m ih =>
    intro l hl
    simp only [toBlocks16Go, List.flatten_cons]
    rw [ih (l.drop 16) (by rw [List.length_drop]; omega), List.take_append_drop]

theorem toBlocks16_eq_go (l : List Nat) (h : l.length % 16 = 0) :
    toBlocks16 l = toBlocks16Go (l.length / 16) l := by
  unfold toBlocks16
  congr 1
  omega

theorem toBlocks16_append16 (b l : List Nat) (hb : b.length = 16) :
    toBlocks16 (b ++ l) = b :: toBlocks16 l := by
  unfold toBlocks16
  rw [List.length_append, hb]
  have hcount : (16 + l.length + 15) / 16 = (l.length + 15) / 16 + 1 := by omega
  rw [hcount]
  simp only [toBlocks16Go]
  congr 1
  · rw [← hb, List.take_left]
  · congr 1
    rw [← hb, List.drop_left]

theorem toBlocks16_flatten (bs : List (List Nat)) (h : ∀ b ∈ bs, b.length = 16) :
    toBlocks16 bs.flatten = bs := by
  induction bs with
  | nil => rfl
  | cons b rest ih =>
    rw [List.flatten_cons, toBlocks16_append16 b _ (h b (List.mem_cons_self b rest)),
      ih (fun x hx => h x (List.mem_cons_of_mem b hx))]

theorem cbcEncryptGo_valid (key : List Nat) (h32 : key.length = 32)
    (hkB : AllBytes key) :
    ∀ (ps : List (List Nat)) (prev : List Nat), prev.length = 16 → AllBytes prev →
      (∀ p ∈ ps, p.length = 16 ∧ AllBytes p) →
      ∀ c ∈ cbcEncryptGo key prev ps, c.length = 16 ∧ AllBytes c := by
  intro ps
  induction ps with
  | nil => intro prev _ _ _ c hc; simp [cbcEncryptGo] at hc
  | cons p rest ih =>
    intro prev hp16 hpB hps c hc
    obtain ⟨h16, hB⟩ := hps p (List.mem_cons_self p rest)
    have hx16 : (xorBytes p prev).length = 16 := by
      rw [xorBytes_length, h16, hp16]
      omega
    have hxB := xorBytes_allBytes p prev hB hpB
    have hc2 := encryptBlock_valid key (xorBytes p prev) h32 hkB hx16 hxB
    simp only [cbcEncryptGo, List.mem_cons] at hc
    rcases hc with h | h
    · exact h ▸ hc2
    · exact ih _ hc2.1 hc2.2 (fun x hx => hps x (List.mem_cons_of_mem p hx)) c h

theorem cbcEncryptGo_count (key : List Nat) :
    ∀ (ps : List (List Nat)) (prev : List Nat),
      (cbcEncryptGo key prev ps).length = ps.length := by
  intro ps
  induction ps with
  | nil => intro prev; rfl
  | cons p rest ih =>
    intro prev
    simp only [cbcEncryptGo, List.length_cons, ih]

theorem cbcDecryptGo_cbcEncryptGo (key : List Nat) (h32 : key.length = 32)
    (hkB : AllBytes key) :
    ∀ (ps : List (List Nat)) (prev : List Nat), prev.length = 16 → AllBytes prev →
      (∀ p ∈ ps, p.length = 16 ∧ AllBytes p) →
      cbcDecryptGo key prev (cbcEncryptGo key prev ps) = ps := by
  intro ps
  induction ps with
  | nil => intro prev _ _ _; rfl
  | cons p rest ih =>
    intro prev hp16 hpB hps
    obtain ⟨h16, hB⟩ := hps p (List.mem_cons_self p rest)
    have hx16 : (xorBytes p prev).length = 16 := by
      rw [xorBytes_length, h16, hp16]
      omega
    have hxB := xorBytes_allBytes p prev hB hpB
    have hc := encryptBlock_valid key (xorBytes p prev) h32 hkB hx16 hxB
    simp only [cbcEncryptGo, cbcDecryptGo]
    rw [decryptBlock_encryptBlock key _ h32 hkB hx16 hxB,
      xorBytes_cancel p prev (by omega),
      ih _ hc.1 hc.2 (fun x hx => hps x (List.mem_cons_of_mem p hx))]

theorem flatten_length_16 (bs : List (List Nat)) (h : ∀ b ∈ bs, b.length = 16) :
    bs.flatten.length = 16 * bs.length := by
  induction bs with
  | nil => rfl
  | cons b rest ih =>
    rw [List.flatten_cons, List.length_append, h b (List.mem_cons_self b rest),
      ih (fun x hx => h x (List.mem_cons_of_mem b hx)), List.length_cons]
    omega

theorem toBlocks16_valid (data : List Nat) (hmod : data.length % 16 = 0)
    (hdB : AllBytes data) :
    ∀ p ∈ toBlocks16 data, p.length = 16 ∧ AllBytes p := by
  intro p hp
  rw [toBlocks16_eq_go data hmod] at hp
  have := toBlocks16Go_mem (data.length / 16) data (by omega) p hp
  exact ⟨this.1, fun x hx => hdB x (this.2 x hx)⟩

/-- CBC decryption inverts CBC encryption for block-aligned data. -/
theorem cbcDecrypt_cbcEncrypt (key iv data : List Nat) (h32 : key.length = 32)
    (hkB : AllBytes key) (hiv16 : iv.length = 16) (hivB : AllBytes iv)
    (hmod : data.length % 16 = 0) (hdB : AllBytes data) :
    cbcDecrypt key iv (cbcEncrypt key iv data) = data := by
  unfold cbcEncrypt cbcDecrypt
  have hps := toBlocks16_valid data hmod hdB
  rw [toBlocks16_flatten _ (fun c hc =>
    (cbcEncryptGo_valid key h32 hkB _ iv hiv16 hivB hps c hc).1)]
  rw [cbcDecryptGo_cbcEncryptGo key h32 hkB _ iv hiv16 hivB hps]
  rw [toBlocks16_eq_go data hmod]
  exact toBlocks16Go_flatten _ data (by omega)

theorem cbcEncrypt_length (key iv data : List Nat) (h32 : key.length = 32)
    (hkB : AllBytes key) (hiv16 : iv.length = 16) (hivB : AllBytes iv)
    (hmod : data.length % 16 = 0) (hdB : AllBytes data) :
    (cbcEncrypt key iv data).length = data.length := by
  unfold cbcEncrypt
  have hps := toBlocks16_valid data hmod hdB
  rw [flatten_length_16 _ (fun c hc =>
    (cbcEncryptGo_valid key h32 hkB _ iv hiv16 hivB hps c hc).1)]
  rw [cbcEncryptGo_count, toBlocks16_eq_go data hmod, toBlocks16Go_count]
  omega

theorem cbcEncrypt_allBytes (key iv data : List Nat) (h32 : key.length = 32)
    (hkB : AllBytes key) (hiv16 : iv.length = 16) (hivB : AllBytes iv)
    (hmod : data.length % 16 = 0) (hdB : AllBytes data) :
    AllBytes (cbcEncrypt key iv data) := by
  intro b hb
  unfold cbcEncrypt at hb
  rw [List.mem_flatten] at hb
  obtain ⟨c, hcmem, hbc⟩ := hb
  exact (cbcEncryptGo_valid key h32 hkB _ iv hiv16 hivB
    (toBlocks16_valid data hmod hdB) c hcmem).2 b hbc

set_option maxRecDepth 100000 in
set_option maxHeartbeats 1000000 in
/-- End-to-end test vector (cross-checked against the Python implementation
and OpenSSL): secret `"test"`, date 2026-10-12, IV `00 01 .. 0f`. -/
theorem generate_admin_secret_vector :
    generate_admin_secret ⟨2026, 10, 12⟩
      [0, 1, 2, 3, 4, 5, 6, 7, 8, 9, 10, 11, 12, 13, 14, 15] "test"
      = "000102030405060708090a0b0c0d0e0f55b9081d4ecb4ce4f4d4636849bb26e2c943610a43d4eac22143dd832e7780f4" := by
  decide

theorem generate_admin_secret_eq (now : Date) (iv : List Nat) (s : String) :
    generate_admin_secret now iv s
      = bytesToHex (iv ++ cbcEncrypt (sha256 (utf8Encode s)) iv
          (pkcs7Pad (utf8Encode (formatDate now ++ "_" ++ s ++ "_xy521")))) := rfl

theorem hexDigit_mem_lowercase {n : Nat} (h : n < 16) :
    hexDigit n ∈ ("0123456789abcdef").data := by
  interval_cases n <;> decide

theorem bytesToHex_chars (l : List Nat) (hl : AllBytes l) :
    ∀ c ∈ (bytesToHex l).data, c ∈ ("0123456789abcdef").data := by
  intro c hc
  have hdata : (bytesToHex l).data = l.flatMap byteToHex := rfl
  rw [hdata, List.mem_flatMap] at hc
  obtain ⟨b, hb, hcb⟩ := hc
  have hb256 := hl b hb
  simp only [byteToHex, List.mem_cons, List.not_mem_nil, or_false] at hcb
  rcases hcb with h | h <;> subst h
  · exact hexDigit_mem_lowercase (Nat.div_lt_of_lt_mul (by omega))
  · exact hexDigit_mem_lowercase (Nat.mod_lt _ (by omega))

theorem generate_take32 (now : Date) (iv : List Nat) (s : String)
    (hiv16 : iv.length = 16) :
    (generate_admin_secret now iv s).data.take 32 = (bytesToHex iv).data := by
  rw [generate_admin_secret_eq, bytesToHex_append]
  have hdata : (bytesToHex iv ++ bytesToHex (cbcEncrypt (sha256 (utf8Encode s)) iv
      (pkcs7Pad (utf8Encode (formatDate now ++ "_" ++ s ++ "_xy521"))))).data
      = (bytesToHex iv).data ++ (bytesToHex (cbcEncrypt (sha256 (utf8Encode s)) iv
          (pkcs7Pad (utf8Encode (formatDate now ++ "_" ++ s ++ "_xy521"))))).data :=
    String.data_append _ _
  rw [hdata]
  have hlen : (bytesToHex iv).data.length = 32 := by
    have := bytesToHex_length iv
    rw [hiv16] at this
    exact this
  rw [← hlen, List.take_left]

theorem generate_take32_decodes (now : Date) (iv : List Nat) (s : String)
    (hiv16 : iv.length = 16) (hivB : AllBytes iv) :
    hexToBytes ((generate_admin_secret now iv s).data.take 32) = iv := by
  rw [generate_take32 now iv s hiv16]
  exact hexToBytes_bytesToHex iv hivB

/-- C1: for every date and 16-byte IV (treated as parameters) and every
non-empty secret `s`, splitting the decoded bytes of the token produced by
`generate_admin_secret` into its first 16 bytes (the IV) and the rest (the
ciphertext), decrypting the ciphertext with AES-256-CBC under the key
SHA-256(UTF-8(`s`)) and that IV, and stripping PKCS#7 padding recovers
byte-for-byte the UTF-8 encoding of `"{date as YYYY-MM-DD}_{s}_xy521"`. -/
theorem generate_admin_secret_roundtrip (now : Date) (iv : List Nat) (s : String)
    (hiv16 : iv.length = 16) (hivB : AllBytes iv) (hs : s ≠ "") :
    pkcs7Unpad (cbcDecrypt (sha256 (utf8Encode s))
        ((hexToBytes (generate_admin_secret now iv s).data).take 16)
        ((hexToBytes (generate_admin_secret now iv s).data).drop 16))
      = some (utf8Encode (formatDate now ++ "_" ++ s ++ "_xy521")) := by
  have h32 := sha256_length (utf8Encode s)
  have hkB := sha256_allBytes (utf8Encode s)
  have hpB := pkcs7Pad_allBytes _
    (utf8Encode_allBytes (formatDate now ++ "_" ++ s ++ "_xy521"))
  have hpmod := pkcs7Pad_length_mod
    (utf8Encode (formatDate now ++ "_" ++ s ++ "_xy521"))
  rw [generate_admin_secret_eq]
  set ct := cbcEncrypt (sha256 (utf8Encode s)) iv
    (pkcs7Pad (utf8Encode (formatDate now ++ "_" ++ s ++ "_xy521"))) with hctdef
  have hctB : AllBytes ct := cbcEncrypt_allBytes _ iv _ h32 hkB hiv16 hivB hpmod hpB
  have hall : AllBytes (iv ++ ct) := by
    intro b hb
    rcases List.mem_append.mp hb with h | h
    exacts [hivB b h, hctB b h]
  rw [hexToBytes_bytesToHex _ hall]
  have htake : (iv ++ ct).take 16 = iv := by
    rw [← hiv16, List.take_left]
  have hdrop : (iv ++ ct).drop 16 = ct := by
    rw [← hiv16, List.drop_left]
  rw [htake, hdrop, hctdef,
    cbcDecrypt_cbcEncrypt _ _ _ h32 hkB hiv16 hivB hpmod hpB, pkcs7Unpad_pkcs7Pad]

/-- Witness for C1 at date 2026-10-12, IV `00 01 .. 0f`, secret `"test"`. -/
theorem generate_admin_secret_roundtrip_witness :
    pkcs7Unpad (cbcDecrypt (sha256 (utf8Encode "test"))
        ((hexToBytes (generate_admin_secret ⟨2026, 10, 12⟩
          [0, 1, 2, 3, 4, 5, 6, 7, 8, 9, 10, 11, 12, 13, 14, 15] "test").data).take 16)
        ((hexToBytes (generate_admin_secret ⟨2026, 10, 12⟩
          [0, 1, 2, 3, 4, 5, 6, 7, 8, 9, 10, 11, 12, 13, 14, 15] "test").data).drop 16))
      = some (utf8Encode (formatDate ⟨2026, 10, 12⟩ ++ "_" ++ "test" ++ "_xy521")) :=
  generate_admin_secret_roundtrip ⟨2026, 10, 12⟩
    [0, 1, 2, 3, 4, 5, 6, 7, 8, 9, 10, 11, 12, 13, 14, 15] "test"
    (by decide) (by decide) (by decide)

/-- C2: the AES key used by `generate_admin_secret` is SHA-256 of the UTF-8
encoding of the secret (whatever the date and IV are, so it depends on
nothing but the secret), every such key is exactly 32 bytes long, and the
key for the secret `"test"` is the standard SHA-256 digest
`9f86d081884c7d659a2feaa0c55ad015a3bf4f1b2b0b822cd15d6c15b0f00a08` of the
ASCII bytes `test`. -/
theorem generate_key_is_sha256 :
    (∀ (now : Date) (iv : List Nat) (s : String),
      generate_admin_secret now iv s
        = bytesToHex (iv ++ cbcEncrypt (sha256 (utf8Encode s)) iv
            (pkcs7Pad (utf8Encode (formatDate now ++ "_" ++ s ++ "_xy521"))))) ∧
    (∀ s : String, (sha256 (utf8Encode s)).length = 32) ∧
    sha256 (utf8Encode "test")
      = [159, 134, 208, 129, 136, 76, 125, 101, 154, 47, 234, 160, 197, 90, 208, 21,
         163, 191, 79, 27, 43, 11, 130, 44, 209, 93, 108, 21, 176, 240, 10, 8] :=
  ⟨fun _ _ _ => rfl, fun s => sha256_length (utf8Encode s), sha256_test_vector⟩

/-- C3: the plaintext that `generate_admin_secret` encrypts is the UTF-8
encoding of the date formatted as `YYYY-MM-DD` (zero-padded), an
underscore, the secret verbatim (no escaping), an underscore and the fixed
suffix `xy521`. -/
theorem generate_plaintext_composition :
    (∀ (now : Date) (iv : List Nat) (s : String),
      generate_admin_secret now iv s
        = bytesToHex (iv ++ cbcEncrypt (sha256 (utf8Encode s)) iv
            (pkcs7Pad (utf8Encode (formatDate now ++ "_" ++ s ++ "_xy521"))))) ∧
    (∀ d s : String, plainTextOf d s = d ++ "_" ++ s ++ "_xy521") ∧
    (∀ now : Date, formatDate now
      = padNum 4 now.year ++ "-" ++ padNum 2 now.month ++ "-" ++ padNum 2 now.day) ∧
    formatDate ⟨2026, 10, 12⟩ = "2026-10-12" ∧
    formatDate ⟨987, 3, 7⟩ = "0987-03-07" :=
  ⟨fun _ _ _ => rfl, fun _ _ => rfl, fun _ => rfl, by decide, by decide⟩

/-- C4: PKCS#7 padding extends every plaintext with between 1 and 16
padding bytes, each equal to the number of padding bytes added, to a
multiple of 16; a block-aligned plaintext receives a full extra block of
16 bytes of value `0x10`. -/
theorem pkcs7Pad_spec (data : List Nat) :
    pkcs7Pad data
        = data ++ List.replicate (pkcs7PadLen data.length) (pkcs7PadLen data.length) ∧
    (pkcs7Pad data).length = data.length + pkcs7PadLen data.length ∧
    (pkcs7Pad data).length % 16 = 0 ∧
    1 ≤ pkcs7PadLen data.length ∧ pkcs7PadLen data.length ≤ 16 ∧
    (data.length % 16 = 0 → pkcs7Pad data = data ++ List.replicate 16 16) :=
  ⟨rfl, pkcs7Pad_length data, pkcs7Pad_length_mod data, pkcs7PadLen_pos _,
   pkcs7PadLen_le _, fun h => by unfold pkcs7Pad pkcs7PadLen; rw [h]⟩

/-- C5: the token is exactly the lowercase hex encoding of
`IV || ciphertext` with the 16-byte IV first: its first 32 hex characters
are the hex encoding of the IV and decode back to the IV, and every
character of the token is a lowercase hex digit. -/
theorem generate_token_hex (now : Date) (iv : List Nat) (s : String)
    (hiv16 : iv.length = 16) (hivB : AllBytes iv) :
    generate_admin_secret now iv s
        = bytesToHex (iv ++ cbcEncrypt (sha256 (utf8Encode s)) iv
            (pkcs7Pad (utf8Encode (formatDate now ++ "_" ++ s ++ "_xy521")))) ∧
    (generate_admin_secret now iv s).data.take 32 = (bytesToHex iv).data ∧
    hexToBytes ((generate_admin_secret now iv s).data.take 32) = iv ∧
    (∀ c ∈ (generate_admin_secret now iv s).data, c ∈ ("0123456789abcdef").data) := by
  refine ⟨rfl, generate_take32 now iv s hiv16,
    generate_take32_decodes now iv s hiv16 hivB, ?_⟩
  have h32 := sha256_length (utf8Encode s)
  have hkB := sha256_allBytes (utf8Encode s)
  have hpB := pkcs7Pad_allBytes _
    (utf8Encode_allBytes (formatDate now ++ "_" ++ s ++ "_xy521"))
  have hpmod := pkcs7Pad_length_mod
    (utf8Encode (formatDate now ++ "_" ++ s ++ "_xy521"))
  have hctB := cbcEncrypt_allBytes _ iv _ h32 hkB hiv16 hivB hpmod hpB
  rw [generate_admin_secret_eq]
  apply bytesToHex_chars
  intro b hb
  rcases List.mem_append.mp hb with h | h
  exacts [hivB b h, hctB b h]

/-- Witness for C5 at date 2026-10-12, IV `00 01 .. 0f`, secret `"test"`. -/
theorem generate_token_hex_witness :
    generate_admin_secret ⟨2026, 10, 12⟩
        [0, 1, 2, 3, 4, 5, 6, 7, 8, 9, 10, 11, 12, 13, 14, 15] "test"
        = bytesToHex ([0, 1, 2, 3, 4, 5, 6, 7, 8, 9, 10, 11, 12, 13, 14, 15]
            ++ cbcEncrypt (sha256 (utf8Encode "test"))
              [0, 1, 2, 3, 4, 5, 6, 7, 8, 9, 10, 11, 12, 13, 14, 15]
              (pkcs7Pad (utf8Encode (formatDate ⟨2026, 10, 12⟩ ++ "_" ++ "test" ++ "_xy521")))) ∧
    (generate_admin_secret ⟨2026, 10, 12⟩
        [0, 1, 2, 3, 4, 5, 6, 7, 8, 9, 10, 11, 12, 13, 14, 15] "test").data.take 32
      = (bytesToHex [0, 1, 2, 3, 4, 5, 6, 7, 8, 9, 10, 11, 12, 13, 14, 15]).data ∧
    hexToBytes ((generate_admin_secret ⟨2026, 10, 12⟩
        [0, 1, 2, 3, 4, 5, 6, 7, 8, 9, 10, 11, 12, 13, 14, 15] "test").data.take 32)
      = [0, 1, 2, 3, 4, 5, 6, 7, 8, 9, 10, 11, 12, 13, 14, 15] ∧
    (∀ c ∈ (generate_admin_secret ⟨2026, 10, 12⟩
        [0, 1, 2, 3, 4, 5, 6, 7, 8, 9, 10, 11, 12, 13, 14, 15] "test").data,
      c ∈ ("0123456789abcdef").data) :=
  generate_token_hex ⟨2026, 10, 12⟩
    [0, 1, 2, 3, 4, 5, 6, 7, 8, 9, 10, 11, 12, 13, 14, 15] "test"
    (by decide) (by decide)

/-- C6: on every invocation with a 16-byte IV, the derived key has 32
bytes, the padded plaintext length is a multiple of 16, the ciphertext is
as long as the padded plaintext, the token has `2 * (16 + |ciphertext|)`
hex characters — an even-length hex string decoding to at least 32 bytes
with `decoded length - 16` a positive multiple of 16. -/
theorem generate_token_invariants (now : Date) (iv : List Nat) (s : String)
    (hiv16 : iv.length = 16) (hivB : AllBytes iv) (hs : s ≠ "") :
    (sha256 (utf8Encode s)).length = 32 ∧
    (pkcs7Pad (utf8Encode (formatDate now ++ "_" ++ s ++ "_xy521"))).length % 16 = 0 ∧
    (cbcEncrypt (sha256 (utf8Encode s)) iv
        (pkcs7Pad (utf8Encode (formatDate now ++ "_" ++ s ++ "_xy521")))).length
      = (pkcs7Pad (utf8Encode (formatDate now ++ "_" ++ s ++ "_xy521"))).length ∧
    (generate_admin_secret now iv s).length
      = 2 * (16 + (cbcEncrypt (sha256 (utf8Encode s)) iv
          (pkcs7Pad (utf8Encode (formatDate now ++ "_" ++ s ++ "_xy521")))).length) ∧
    (generate_admin_secret now iv s).length % 2 = 0 ∧
    (hexToBytes (generate_admin_secret now iv s).data).length
      = 16 + (cbcEncrypt (sha256 (utf8Encode s)) iv
          (pkcs7Pad (utf8Encode (formatDate now ++ "_" ++ s ++ "_xy521")))).length ∧
    32 ≤ (hexToBytes (generate_admin_secret now iv s).data).length ∧
    16 < (hexToBytes (generate_admin_secret now iv s).data).length ∧
    ((hexToBytes (generate_admin_secret now iv s).data).length - 16) % 16 = 0 := by
  have h32 := sha256_length (utf8Encode s)
  have hkB := sha256_allBytes (utf8Encode s)
  have hpB := pkcs7Pad_allBytes _
    (utf8Encode_allBytes (formatDate now ++ "_" ++ s ++ "_xy521"))
  have hpmod := pkcs7Pad_length_mod
    (utf8Encode (formatDate now ++ "_" ++ s ++ "_xy521"))
  have hppos := pkcs7PadLen_pos (utf8Encode (formatDate now ++ "_" ++ s ++ "_xy521")).length
  have hplen := pkcs7Pad_length (utf8Encode (formatDate now ++ "_" ++ s ++ "_xy521"))
  have hctlen := cbcEncrypt_length _ iv _ h32 hkB hiv16 hivB hpmod hpB
  have hctB := cbcEncrypt_allBytes _ iv _ h32 hkB hiv16 hivB hpmod hpB
  have hall : AllBytes (iv ++ cbcEncrypt (sha256 (utf8Encode s)) iv
      (pkcs7Pad (utf8Encode (formatDate now ++ "_" ++ s ++ "_xy521")))) := by
    intro b hb
    rcases List.mem_append.mp hb with h | h
    exacts [hivB b h, hctB b h]
  have htok : (generate_admin_secret now iv s).length
      = 2 * (16 + (cbcEncrypt (sha256 (utf8Encode s)) iv
          (pkcs7Pad (utf8Encode (formatDate now ++ "_" ++ s ++ "_xy521")))).length) := by
    rw [generate_admin_secret_eq, bytesToHex_length, List.length_append, hiv16]
  have hdec : (hexToBytes (generate_admin_secret now iv s).data).length
      = 16 + (cbcEncrypt (sha256 (utf8Encode s)) iv
          (pkcs7Pad (utf8Encode (formatDate now ++ "_" ++ s ++ "_xy521")))).length := by
    rw [generate_admin_secret_eq, hexToBytes_bytesToHex _ hall, List.length_append, hiv16]
  refine ⟨h32, hpmod, hctlen, htok, by omega, hdec, ?_, ?_, ?_⟩ <;> omega

/-- Witness for C6 at date 2026-10-12, IV `00 01 .. 0f`, secret `"test"`. -/
theorem generate_token_invariants_witness :
    (sha256 (utf8Encode "test")).length = 32 ∧
    (pkcs7Pad (utf8Encode (formatDate ⟨2026, 10, 12⟩ ++ "_" ++ "test" ++ "_xy521"))).length % 16 = 0 ∧
    (cbcEncrypt (sha256 (utf8Encode "test"))
        [0, 1, 2, 3, 4, 5, 6, 7, 8, 9, 10, 11, 12, 13, 14, 15]
        (pkcs7Pad (utf8Encode (formatDate ⟨2026, 10, 12⟩ ++ "_" ++ "test" ++ "_xy521")))).length
      = (pkcs7Pad (utf8Encode (formatDate ⟨2026, 10, 12⟩ ++ "_" ++ "test" ++ "_xy521"))).length ∧
    (generate_admin_secret ⟨2026, 10, 12⟩
        [0, 1, 2, 3, 4, 5, 6, 7, 8, 9, 10, 11, 12, 13, 14, 15] "test").length
      = 2 * (16 + (cbcEncrypt (sha256 (utf8Encode "test"))
          [0, 1, 2, 3, 4, 5, 6, 7, 8, 9, 10, 11, 12, 13, 14, 15]
          (pkcs7Pad (utf8Encode (formatDate ⟨2026, 10, 12⟩ ++ "_" ++ "test" ++ "_xy521")))).length) ∧
    (generate_admin_secret ⟨2026, 10, 12⟩
        [0, 1, 2, 3, 4, 5, 6, 7, 8, 9, 10, 11, 12, 13, 14, 15] "test").length % 2 = 0 ∧
    (hexToBytes (generate_admin_secret ⟨2026, 10, 12⟩
        [0, 1, 2, 3, 4, 5, 6, 7, 8, 9, 10, 11, 12, 13, 14, 15] "test").data).length
      = 16 + (cbcEncrypt (sha256 (utf8Encode "test"))
          [0, 1, 2, 3, 4, 5, 6, 7, 8, 9, 10, 11, 12, 13, 14, 15]
          (pkcs7Pad (utf8Encode (formatDate ⟨2026, 10, 12⟩ ++ "_" ++ "test" ++ "_xy521")))).length ∧
    32 ≤ (hexToBytes (generate_admin_secret ⟨2026, 10, 12⟩
        [0, 1, 2, 3, 4, 5, 6, 7, 8, 9, 10, 11, 12, 13, 14, 15] "test").data).length ∧
    16 < (hexToBytes (generate_admin_secret ⟨2026, 10, 12⟩
        [0, 1, 2, 3, 4, 5, 6, 7, 8, 9, 10, 11, 12, 13, 14, 15] "test").data).length ∧
    ((hexToBytes (generate_admin_secret ⟨2026, 10, 12⟩
        [0, 1, 2, 3, 4, 5, 6, 7, 8, 9, 10, 11, 12, 13, 14, 15] "test").data).length - 16) % 16 = 0 :=
  generate_token_invariants ⟨2026, 10, 12⟩
    [0, 1, 2, 3, 4, 5, 6, 7, 8, 9, 10, 11, 12, 13, 14, 15] "test"
    (by decide) (by decide) (by decide)

/-- C7: for a fixed secret and date, two runs that draw distinct 16-byte
IVs produce tokens that differ already in their first 32 hex characters,
hence distinct tokens. -/
theorem generate_distinct_tokens (now : Date) (s : String) (iv1 iv2 : List Nat)
    (h116 : iv1.length = 16) (h1B : AllBytes iv1)
    (h216 : iv2.length = 16) (h2B : AllBytes iv2) (hne : iv1 ≠ iv2) :
    (generate_admin_secret now iv1 s).data.take 32
        ≠ (generate_admin_secret now iv2 s).data.take 32 ∧
    generate_admin_secret now iv1 s ≠ generate_admin_secret now iv2 s := by
  have hfst : (generate_admin_secret now iv1 s).data.take 32
      ≠ (generate_admin_secret now iv2 s).data.take 32 := by
    intro h
    apply hne
    have h2 := congrArg hexToBytes h
    rw [generate_take32_decodes now iv1 s h116 h1B,
      generate_take32_decodes now iv2 s h216 h2B] at h2
    exact h2
  refine ⟨hfst, ?_⟩
  intro h
  exact hfst (congrArg (fun t : String => t.data.take 32) h)

/-- Witness for C7 at date 2026-10-12, secret `"test"`, IVs `00..0f` and
`ff 01 .. 0f`. -/
theorem generate_distinct_tokens_witness :
    (generate_admin_secret ⟨2026, 10, 12⟩
        [0, 1, 2, 3, 4, 5, 6, 7, 8, 9, 10, 11, 12, 13, 14, 15] "test").data.take 32
        ≠ (generate_admin_secret ⟨2026, 10, 12⟩
        [255, 1, 2, 3, 4, 5, 6, 7, 8, 9, 10, 11, 12, 13, 14, 15] "test").data.take 32 ∧
    generate_admin_secret ⟨2026, 10, 12⟩
        [0, 1, 2, 3, 4, 5, 6, 7, 8, 9, 10, 11, 12, 13, 14, 15] "test"
      ≠ generate_admin_secret ⟨2026, 10, 12⟩
        [255, 1, 2, 3, 4, 5, 6, 7, 8, 9, 10, 11, 12, 13, 14, 15] "test" :=
  generate_distinct_tokens ⟨2026, 10, 12⟩ "test"
    [0, 1, 2, 3, 4, 5, 6, 7, 8, 9, 10, 11, 12, 13, 14, 15]
    [255, 1, 2, 3, 4, 5, 6, 7, 8, 9, 10, 11, 12, 13, 14, 15]
    (by decide) (by decide) (by decide) (by decide) (by decide)

/-- C8 (amended): when the secret chosen by the `__main__` block (the
command-line argument verbatim, or the interactive input after stripping)
is empty, the program produces no token, prints the error line
`错误: 未提供 ADMIN_SECRET`, and terminates normally — with exit status 0,
not a failing status. -/
theorem main_empty_secret_behavior (argv : List String) (stdin : String)
    (now : Date) (urandom16 : List Nat)
    (h : (match argv with | a :: _ => a | [] => pyStrip stdin) = "") :
    (mainProgram argv stdin now urandom16).token = none ∧
    (mainProgram argv stdin now urandom16).stdout = ["错误: 未提供 ADMIN_SECRET"] ∧
    (mainProgram argv stdin now urandom16).exitCode = 0 := by
  cases argv with
  | nil =>
    have h2 : pyStrip stdin = "" := h
    simp [mainProgram, h2]
  | cons a rest =>
    have h2 : a = "" := h
    simp [mainProgram, h2]

/-- Witness for the amended C8: no argument, stdin a no-break space
between ASCII spaces, which `str.strip()` trims to empty. -/
theorem main_empty_secret_behavior_witness :
    (mainProgram [] " \u00A0 " ⟨2026, 10, 12⟩
        [0, 1, 2, 3, 4, 5, 6, 7, 8, 9, 10, 11, 12, 13, 14, 15]).token = none ∧
    (mainProgram [] " \u00A0 " ⟨2026, 10, 12⟩
        [0, 1, 2, 3, 4, 5, 6, 7, 8, 9, 10, 11, 12, 13, 14, 15]).stdout
      = ["错误: 未提供 ADMIN_SECRET"] ∧
    (mainProgram [] " \u00A0 " ⟨2026, 10, 12⟩
        [0, 1, 2, 3, 4, 5, 6, 7, 8, 9, 10, 11, 12, 13, 14, 15]).exitCode = 0 :=
  main_empty_secret_behavior [] " \u00A0 " ⟨2026, 10, 12⟩
    [0, 1, 2, 3, 4, 5, 6, 7, 8, 9, 10, 11, 12, 13, 14, 15] (by decide)

/-- C8 counterexample: on the empty-secret path the process exit status is
0, the same status as a successful run, so the exit behavior does not
signal failure. -/
theorem main_empty_secret_exit_counterexample :
    (mainProgram [] "   " ⟨2026, 10, 12⟩
        [0, 1, 2, 3, 4, 5, 6, 7, 8, 9, 10, 11, 12, 13, 14, 15]).exitCode = 0 ∧
    (mainProgram ["test"] "" ⟨2026, 10, 12⟩
        [0, 1, 2, 3, 4, 5, 6, 7, 8, 9, 10, 11, 12, 13, 14, 15]).exitCode = 0 ∧
    (mainProgram [] "   " ⟨2026, 10, 12⟩
        [0, 1, 2, 3, 4, 5, 6, 7, 8, 9, 10, 11, 12, 13, 14, 15]).token = none := by
  refine ⟨rfl, rfl, rfl⟩

/-- C10: a command-line secret is used verbatim — a non-empty argument,
even one consisting only of whitespace, produces a token built from that
exact string — while an interactive secret is first stripped of
surrounding whitespace. -/
theorem main_argv_not_stripped (a : String) (rest : List String)
    (stdin stdin2 : String) (now : Date) (urandom16 : List Nat)
    (hne : a ≠ "") (hws : ∀ c ∈ a.data, isPyWhitespace c)
    (h2 : pyStrip stdin2 ≠ "") :
    (mainProgram (a :: rest) stdin now urandom16).token
        = some (generate_admin_secret now urandom16 a) ∧
    (mainProgram [] stdin2 now urandom16).token
        = some (generate_admin_secret now urandom16 (pyStrip stdin2)) := by
  constructor
  · simp [mainProgram, hne]
  · simp [mainProgram, h2]

/-- Witness for C10: the argument is a single no-break space (a
whitespace-only string), the stdin value is `"ok"` wrapped in no-break
spaces. -/
theorem main_argv_not_stripped_witness :
    (mainProgram ["\u00A0"] "x" ⟨2026, 10, 12⟩
        [0, 1, 2, 3, 4, 5, 6, 7, 8, 9, 10, 11, 12, 13, 14, 15]).token
        = some (generate_admin_secret ⟨2026, 10, 12⟩
            [0, 1, 2, 3, 4, 5, 6, 7, 8, 9, 10, 11, 12, 13, 14, 15] "\u00A0") ∧
    (mainProgram [] "\u00A0ok\u00A0" ⟨2026, 10, 12⟩
        [0, 1, 2, 3, 4, 5, 6, 7, 8, 9, 10, 11, 12, 13, 14, 15]).token
        = some (generate_admin_secret ⟨2026, 10, 12⟩
            [0, 1, 2, 3, 4, 5, 6, 7, 8, 9, 10, 11, 12, 13, 14, 15]
            (pyStrip "\u00A0ok\u00A0")) :=
  main_argv_not_stripped "\u00A0" [] "x" "\u00A0ok\u00A0" ⟨2026, 10, 12⟩
    [0, 1, 2, 3, 4, 5, 6, 7, 8, 9, 10, 11, 12, 13, 14, 15]
    (by decide) (by decide) (by decide)

/-- Witness for C4 at the block-aligned input of sixteen zero bytes. -/
theorem pkcs7Pad_spec_witness :
    pkcs7Pad (List.replicate 16 0)
        = List.replicate 16 0 ++ List.replicate (pkcs7PadLen (List.replicate 16 0).length)
            (pkcs7PadLen (List.replicate 16 0).length) ∧
    (pkcs7Pad (List.replicate 16 0)).length
        = (List.replicate 16 0).length + pkcs7PadLen (List.replicate 16 0).length ∧
    (pkcs7Pad (List.replicate 16 0)).length % 16 = 0 ∧
    1 ≤ pkcs7PadLen (List.replicate 16 0).length ∧
    pkcs7PadLen (List.replicate 16 0).length ≤ 16 ∧
    ((List.replicate 16 0).length % 16 = 0 →
      pkcs7Pad (List.replicate 16 0) = List.replicate 16 0 ++ List.replicate 16 16) :=
  pkcs7Pad_spec (List.replicate 16 0)

/-- `pyStrip` matches Python `str.strip()` on Unicode whitespace: a
no-break space or an ideographic space alone strips to empty, NBSP and
em-space wrappers are removed while inner content is kept, and ASCII
spaces behave as before. -/
theorem pyStrip_unicode_whitespace :
    pyStrip "\u00A0" = "" ∧ pyStrip "\u3000" = "" ∧ pyStrip "\u001C" = "" ∧
    pyStrip "\u00A0a\u00A0" = "a" ∧ pyStrip "\u2003ok\u2003" = "ok" ∧
    pyStrip "  x  " = "x" ∧ pyStrip "\u0085" = "" := by decide
